import Mathlib

/-! # fabio: metrics names, access log, metered round trips and the TCP+SNI relay

A shallow embedding of

* `metrics/metrics.go`  (`clean`, `TargetName`),
* `proxy/http.go`       (`name`, `meteredRoundTripper.RoundTrip`),
* `proxy/tcp_sni_proxy.go` (`tcpSNIProxy.Serve`),
* `route/table_registry_test.go` (`stubProvider`, `TestSyncRegistry`),
* `metrics/gometrics/provider.go` (`gmProvider`),
* `logger/logger.go` (`atoi`, `fields`, `New`, `parse`, `Logger.Log`).

Go strings are modelled as Lean strings, that is as sequences of runes.
Effectful code is modelled by the list of observable actions it performs,
given the answers of its collaborators.
-/

namespace Fabio

/-! ## Go standard library pieces used by the sources -/

/-- Go `unicode.ToLower`.  For ASCII the standard library shifts `A`..`Z` by
`'a' - 'A'` and returns every other rune unchanged; a rune above
`unicode.MaxASCII` is sent through the Unicode case tables, which are the
parameter `caseTable`. -/
def unicodeToLower (caseTable : Char → Char) (r : Char) : Char :=
  if r.toNat ≤ 127 then
    if 65 ≤ r.toNat ∧ r.toNat ≤ 90 then Char.ofNat (r.toNat + 32) else r
  else caseTable r

/-- Go `strings.ToLower`: every rune mapped through `unicode.ToLower`. -/
def stringsToLower (caseTable : Char → Char) (s : String) : String :=
  ⟨s.data.map (unicodeToLower caseTable)⟩

/-- Go `strings.Replace(s, old, new, -1)` for a one-rune `old` and a one-rune
`new`, which is how `clean` calls it: every occurrence is replaced. -/
def stringsReplace (s : String) (old new : Char) : String :=
  ⟨s.data.map (fun c => if c = old then new else c)⟩

/-- Go `strings.Join`. -/
def stringsJoin : List String → String → String
  | [], _ => ""
  | [a], _ => a
  | a :: b :: rest, sep => a ++ sep ++ stringsJoin (b :: rest) sep

/-! ## `metrics/metrics.go` -/

/-- The part of `net/url.URL` the sources read. -/
structure URL where
  Scheme : String
  Host : String
  deriving DecidableEq, Repr

/-- `clean` creates safe names for graphite reporting by replacing some
characters with underscores (`metrics.go`, `clean`). -/
def clean (caseTable : Char → Char) (s : String) : String :=
  if s = "" then "_"
  else
    let s1 := stringsReplace s '.' '_'
    let s2 := stringsReplace s1 ':' '_'
    stringsToLower caseTable s2

/-- `TargetName` returns the metrics name from the given parameters
(`metrics.go`, `TargetName`). -/
def TargetName (caseTable : Char → Char) (service host path : String) (targetURL : URL) : String :=
  stringsJoin
    [clean caseTable service, clean caseTable host, clean caseTable path,
     clean caseTable targetURL.Host] "."

/-! ## `proxy/http.go` -/

/-- Go `strconv.AppendInt(b, i, 10)`: the base-10 text of `i`, with a leading
`-` for a negative value, appended to `b`. -/
def strconvAppendInt (b : String) (i : Int) : String :=
  if i < 0 then b ++ "-" ++ ⟨Nat.toDigits 10 i.natAbs⟩ else b ++ ⟨Nat.toDigits 10 i.natAbs⟩

/-- The timer name of a status code (`http.go`, `name`). -/
def name (code : Int) : String :=
  let b := "http.status."
  let b := strconvAppendInt b code
  b

/-- The part of `net/http.Request` a transport can look at. -/
structure Request where
  Method : String
  Host : String
  Path : String
  deriving DecidableEq, Repr

/-- The part of `net/http.Response` the round tripper reads. -/
structure Response where
  StatusCode : Int
  Body : String
  deriving DecidableEq, Repr

/-- A Go `error` value; `io.EOF` is told apart from every other error. -/
inductive GoError where
  | EOF
  | other (msg : String)
  deriving DecidableEq, Repr

/-- How a Go function call ends: it returns a value or it panics. -/
inductive Outcome (α : Type) where
  | returned (value : α)
  | panicked (msg : String)
  deriving DecidableEq, Repr

/-- What `meteredRoundTripper.RoundTrip` does to its surroundings. -/
inductive RoundTripAction where
  | timeNow
  | transportRoundTrip (r : Request)
  | timerUpdateSince (timerName : String) (start : Nat)
  deriving DecidableEq, Repr

/-- The wrapped `http.RoundTripper`: its answer `(resp, err)` to a request,
where `none` is Go's `nil`. -/
abbrev Transport := Request → Option Response × Option GoError

/-- `meteredRoundTripper.RoundTrip` (`http.go`): `tr` is the wrapped transport
`m.tr`, `now` is what `time.Now()` reads.  The result is the list of actions
in program order and the way the call ends.  Reading `resp.StatusCode`
through a nil `resp` is a nil pointer dereference, which panics before `name`
and the timer are reached. -/
def RoundTrip (tr : Transport) (now : Nat) (r : Request) :
    List RoundTripAction × Outcome (Option Response × Option GoError) :=
  let start := now
  let (resp, err) := tr r
  match resp with
  | none =>
    ([.timeNow, .transportRoundTrip r],
      .panicked "runtime error: invalid memory address or nil pointer dereference")
  | some rsp =>
    ([.timeNow, .transportRoundTrip r, .timerUpdateSince (name rsp.StatusCode) start],
      .returned (resp, err))

/-! ## `proxy/tcp_sni_proxy.go` -/

/-- A byte of network data. -/
abbrev Byte := Nat

/-- Modelled from the spec: `config.Proxy` is not among the sources; `Serve`
reads its `DialTimeout` (the bounded, configurable dial timeout) only. -/
structure Proxy where
  DialTimeout : Nat
  deriving DecidableEq, Repr

/-- Modelled from the spec: `route.Target` is not among the sources; a target
is one upstream endpoint with an address (`URL`), a weight and tags. `Serve`
reads `URL.Host` only. -/
structure Target where
  URL : URL
  Weight : Int
  Tags : List String
  deriving DecidableEq, Repr

/-- The relay `tcpSNIProxy` with its configuration `cfg`. -/
structure tcpSNIProxy where
  cfg : Proxy
  deriving DecidableEq, Repr

/-- The two connections of a relay: `client` is `in`, `upstream` is `out`. -/
inductive Conn where
  | client
  | upstream
  deriving DecidableEq, Repr

/-- What `Serve` does to its surroundings. -/
inductive Event where
  | read (c : Conn) (bufLen : Nat)
  | readServerName (data : List Byte)
  | writeText (c : Conn) (text : String)
  | write (c : Conn) (data : List Byte)
  | lookupHost (serverName : String)
  | log (msg : String)
  | dialTimeout (network addr : String) (timeout : Nat)
  | goCopy (dst src : Conn)
  | recvErrc
  | close (c : Conn)
  deriving DecidableEq, Repr

/-- The answers of the collaborators of one run of `Serve`. -/
structure ServeEnv where
  /-- `ShuttingDown()` -/
  shuttingDown : Bool
  /-- the bytes the client connection has ready for the first `Read` -/
  inPending : List Byte
  /-- the error of the first `Read` -/
  inReadErr : Option GoError
  /-- the SNI parser `readServerName`, which is not among the sources -/
  readServerName : List Byte → String × Bool
  /-- `route.GetTable().LookupHost` -/
  lookupHost : String → Option Target
  /-- `net.DialTimeout`: `none` is a connection, `some e` the dial error -/
  dialTimeout : String → String → Nat → Option GoError
  /-- the error of `out.Write` -/
  outWrite : List Byte → Option GoError
  /-- the first value received from the channel `errc` -/
  errc : Option GoError

/-- Go `make([]byte, n)`: `n` zero bytes. -/
@[irreducible]
def makeBytes (n : Nat) : List Byte := List.replicate n 0

/-- `net.Conn.Read(buf)`: at most `len(buf)` of the pending bytes are copied
to the front of `buf`; the result is the buffer, the count `n` and the error. -/
def connRead (pending : List Byte) (err : Option GoError) (buf : List Byte) :
    List Byte × Nat × Option GoError :=
  let got := pending.take buf.length
  (got ++ buf.drop got.length, got.length, err)

/-- `fmt.Fprintln(w, a...)` for string operands: one `Write` of the operands
separated by spaces and followed by a newline. -/
def fmtFprintln (w : Conn) (a : List String) : Event :=
  .writeText w (stringsJoin a " " ++ "\n")

/-- `tcpSNIProxy.Serve` (`tcp_sni_proxy.go`): the actions, in program order, of
a run in which every blocking call returns.  The deferred `in.Close()` and
`out.Close()` run when the function returns, last deferred first. -/
def Serve (p : tcpSNIProxy) (env : ServeEnv) : List Event :=
  (if env.shuttingDown then []
   else
    let data := makeBytes 1024
    let (data, n, err) := connRead env.inPending env.inReadErr data
    Event.read .client 1024 ::
    (if err ≠ none then []
     else
      let data := data.take n
      let (serverName, ok) := env.readServerName data
      Event.readServerName data ::
      (if !ok then [fmtFprintln .client ["handshake failed"]]
       else if serverName = "" then [fmtFprintln .client ["server_name missing"]]
       else
        Event.lookupHost serverName ::
        (match env.lookupHost serverName with
         | none => [Event.log ("[WARN] No route for " ++ serverName)]
         | some t =>
          Event.dialTimeout "tcp" t.URL.Host p.cfg.DialTimeout ::
          (match env.dialTimeout "tcp" t.URL.Host p.cfg.DialTimeout with
           | some _ => [Event.log "cannot connect upstream\n"]
           | none =>
            (Event.write .upstream data ::
             (match env.outWrite data with
              | some _ => [Event.log "copy client hello failed\n"]
              | none =>
                [Event.goCopy .upstream .client, Event.goCopy .client .upstream,
                 Event.recvErrc] ++
                (match env.errc with
                 | none => []
                 | some .EOF => []
                 | some (.other msg) => [Event.log ("error  " ++ msg ++ "\n")])))
            ++ [Event.close .upstream])))))
  ++ [Event.close .client]

/-! ## `route/table_registry_test.go` and the route table -/

/-- `stubProvider` (`table_registry_test.go`).  `names` lists the keys of the
Go map `names map[string]bool`, each once; every stored value is `true`. -/
structure stubProvider where
  names : List String
  deriving DecidableEq, Repr

/-- `newStubProvider`: an empty map. -/
def newStubProvider : stubProvider := ⟨[]⟩

/-- The order in which one `for k := range m` visits the keys of a Go map.
The language leaves it unspecified: the runtime may pick any order. -/
abbrev RangeOrder := List String → List String

/-- What every Go runtime guarantees of a `range` over a map: each key is
visited once. -/
def RangeOrder.Valid (order : RangeOrder) : Prop := ∀ keys, (order keys).Perm keys

/-- `stubProvider.Names`: the keys are appended to `n` in the order `range`
visits them; the slice is returned as it is. -/
def stubProvider.Names (order : RangeOrder) (p : stubProvider) : List String :=
  (order p.names).foldl (fun n k => n ++ [k]) []

/-- `stubProvider.Unregister`: `delete(p.names, name)`. -/
def stubProvider.Unregister (p : stubProvider) (name : String) : stubProvider :=
  ⟨p.names.filter (fun k => k ≠ name)⟩

/-- `stubProvider.UnregisterAll`: a fresh empty map. -/
def stubProvider.UnregisterAll (_p : stubProvider) : stubProvider := ⟨[]⟩

/-- `stubProvider.GetTimer`: `p.names[name] = true`; the returned
`NoopTimer` carries no state. -/
def stubProvider.GetTimer (p : stubProvider) (name : String) : stubProvider :=
  if name ∈ p.names then p else ⟨p.names ++ [name]⟩

/-- Go's `<=` on strings, a lexicographic comparison; on sequences of runes it
compares code points. -/
def runesLE : List Char → List Char → Bool
  | [], _ => true
  | _ :: _, [] => false
  | a :: as, b :: bs => decide (a.toNat < b.toNat) || (decide (a.toNat = b.toNat) && runesLE as bs)

/-- Go `sort.Strings`: the strings in increasing order. -/
def sortStrings (names : List String) : List String :=
  names.insertionSort (fun a b => runesLE a.data b.data = true)

/-- `gmProvider.Names` (`gometrics/provider.go`) on the same registered names:
the names are collected in the order `Each` visits them and then sorted with
`sort.Strings`. -/
def gmNames (order : RangeOrder) (registered : List String) : List String :=
  sortStrings ((order registered).foldl (fun n k => n ++ [k]) [])

/-- Modelled from the spec: `route.Route` is not among the sources; a route is
a forwarding rule with a service, a virtual host, a path and its targets. -/
structure Route where
  Service : String
  Host : String
  Path : String
  Targets : List Target
  deriving DecidableEq, Repr

/-- Modelled from the spec: `route.Table` is not among the sources; the table
maps a virtual host to the routes registered under it. -/
abbrev Table := List (String × List Route)

/-- Modelled from the spec: the metric identifiers implied by a table, one
`TargetName` for each target of each route. -/
def Table.identifiers (caseTable : Char → Char) (t : Table) : List String :=
  t.flatMap fun bucket => bucket.2.flatMap fun r =>
    r.Targets.map fun tg => TargetName caseTable r.Service r.Host r.Path tg.URL

/-- Modelled from the spec: appending or merging a target into a route; a
target with the same address is replaced, a new one is appended. -/
def Route.addTarget (r : Route) (tg : Target) : Route :=
  if r.Targets.any (fun x => x.URL = tg.URL) then
    { r with Targets := r.Targets.map (fun x => if x.URL = tg.URL then tg else x) }
  else { r with Targets := r.Targets ++ [tg] }

/-- Modelled from the spec: the routes of a host bucket after adding a target
to the route matched by service, host and path. -/
def addToBucket (routes : List Route) (service host path : String) (tg : Target) : List Route :=
  if routes.any (fun r => r.Service = service ∧ r.Host = host ∧ r.Path = path) then
    routes.map (fun r =>
      if r.Service = service ∧ r.Host = host ∧ r.Path = path then r.addTarget tg else r)
  else routes ++ [⟨service, host, path, [tg]⟩]

/-- Modelled from the spec: `Table.AddRoute` is not among the sources.  It
fails with `InvalidWeight` when the weight is not positive and otherwise
builds the successor table.  The target takes its timer from the metrics
provider with `GetTimer`, its first use of the identifier, which is how the
test in `table_registry_test.go` sees the identifier right after `AddRoute`. -/
def Table.AddRoute (caseTable : Char → Char) (t : Table) (prov : stubProvider)
    (service host path : String) (target : URL) (weight : Int) (tags : List String) :
    Except String (Table × stubProvider) :=
  if weight ≤ 0 then .error "InvalidWeight"
  else
    let tg : Target := ⟨target, weight, tags⟩
    let prov := prov.GetTimer (TargetName caseTable service host path target)
    if t.any (fun bucket => bucket.1 = host) then
      .ok (t.map (fun bucket =>
        if bucket.1 = host then (bucket.1, addToBucket bucket.2 service host path tg)
        else bucket), prov)
    else .ok (t ++ [(host, addToBucket [] service host path tg)], prov)

/-- Modelled from the spec: `Table.DelRoute` is not among the sources.  The
target is removed from the matching route; a route without targets and a
host without routes are removed. -/
def Table.DelRoute (t : Table) (service host path : String) (target : URL) : Table :=
  (t.map fun bucket =>
    (bucket.1,
      (bucket.2.map fun r =>
        if r.Service = service ∧ r.Host = host ∧ r.Path = path then
          { r with Targets := r.Targets.filter (fun x => x.URL ≠ target) }
        else r).filter (fun r => r.Targets ≠ []))).filter (fun bucket => bucket.2 ≠ [])

/-- Modelled from the spec: `syncRegistry` is not among the sources; the test
calls it with the table alone.  Every registered identifier that the table
does not imply is unregistered; nothing is registered. -/
def syncRegistry (caseTable : Char → Char) (order : RangeOrder) (prov : stubProvider)
    (t : Table) : stubProvider :=
  (prov.Names order).foldl
    (fun p n => if n ∈ t.identifiers caseTable then p else p.Unregister n) prov

/-- The first half of `TestSyncRegistry`: two routes are added to an empty
table with an empty stub provider installed. -/
def testAdds (caseTable : Char → Char) : Except String (Table × stubProvider) := do
  let (tbl, prov) ←
    Table.AddRoute caseTable [] newStubProvider "svc-a" "" "/aaa" ⟨"http", "localhost:1234"⟩ 1 []
  Table.AddRoute caseTable tbl prov "svc-b" "" "/bbb" ⟨"http", "localhost:5678"⟩ 1 []

/-- The names the test compares with after the two calls of `AddRoute`. -/
def testWantAfterAdds : List String :=
  ["svc-a._./aaa.localhost_1234", "svc-b._./bbb.localhost_5678"]

/-! ## Observations on runs, and concrete runs -/

/-- A transport that fails to connect: no response, an error. -/
def refusingTransport : Transport :=
  fun _ => (none, some (.other "dial tcp 127.0.0.1:1234: connection refused"))

/-- A transport that answers every request with status 200. -/
def okTransport : Transport :=
  fun _ => (some ⟨200, "hello"⟩, none)

/-- The calls of the wrapped transport among the actions of a round trip. -/
def transportCalls (actions : List RoundTripAction) : List Request :=
  actions.filterMap fun a =>
    match a with
    | .transportRoundTrip r => some r
    | _ => none

/-- The calls of `readServerName` in a run, with the buffer handed over. -/
def parseCalls (trace : List Event) : List (List Byte) :=
  trace.filterMap fun e =>
    match e with
    | .readServerName data => some data
    | _ => none

/-- The calls of `net.DialTimeout` in a run: network, address, timeout. -/
def dialCalls (trace : List Event) : List (String × String × Nat) :=
  trace.filterMap fun e =>
    match e with
    | .dialTimeout network addr timeout => some (network, addr, timeout)
    | _ => none

/-- The writes `Serve` itself makes to the upstream connection, with the bytes
written. -/
def upstreamWrites (trace : List Event) : List (List Byte) :=
  trace.filterMap fun e =>
    match e with
    | .write .upstream data => some data
    | _ => none

/-- The part of a run before the first copy task is started. -/
def beforeCopy (trace : List Event) : List Event :=
  trace.takeWhile fun e =>
    match e with
    | .goCopy _ _ => false
    | _ => true

/-- The upstream dial of a run succeeded: `net.DialTimeout` was called and
answered with a connection. -/
def dialSucceeded (env : ServeEnv) (trace : List Event) : Prop :=
  ∃ c ∈ dialCalls trace, env.dialTimeout c.1 c.2.1 c.2.2 = none

/-- A toy parser for concrete runs: a buffer starting with the handshake
record type 22 parses; its second byte tells whether a server name is there. -/
def sampleParser (data : List Byte) : String × Bool :=
  match data with
  | 22 :: 1 :: _ => ("example.com", true)
  | 22 :: _ => ("", true)
  | _ => ("", false)

/-- A run that relays: the hello parses, the host has a route, the dial and
the first upstream write succeed, and a copy task ends without error. -/
def relayEnv : ServeEnv where
  shuttingDown := false
  inPending := [22, 1, 3, 0, 5]
  inReadErr := none
  readServerName := sampleParser
  lookupHost := fun h => if h = "example.com" then some ⟨⟨"tcp", "10.0.0.1:443"⟩, 1, []⟩ else none
  dialTimeout := fun _ _ _ => none
  outWrite := fun _ => none
  errc := none

/-- The relay of the concrete runs, with a dial timeout of 30. -/
def sampleProxy : tcpSNIProxy := ⟨⟨30⟩⟩

/-- The condition under which `Serve` gets as far as dialling. -/
def reachesDial (env : ServeEnv) : Prop :=
  env.shuttingDown = false ∧ env.inReadErr = none ∧
    (env.readServerName (env.inPending.take 1024)).2 = true ∧
    (env.readServerName (env.inPending.take 1024)).1 ≠ "" ∧
    env.lookupHost (env.readServerName (env.inPending.take 1024)).1 ≠ none

/-! ## `metrics/gometrics/provider.go` -/

/-- `gmProvider` (`gometrics/provider.go`).  `registry` lists the names under
which a metric is registered in the go-metrics registry, a map from names to
metrics: each name once. -/
structure gmProvider where
  registry : List String
  deriving DecidableEq, Repr

/-- `gmProvider.Names`: `Each` hands every registered name to the callback,
in the order `order` of the registry map, and the names are then sorted. -/
def gmProvider.Names (order : RangeOrder) (p : gmProvider) : List String :=
  gmNames order p.registry

/-- `gmProvider.Unregister`: the registry drops the entry of `name`. -/
def gmProvider.Unregister (p : gmProvider) (name : String) : gmProvider :=
  ⟨p.registry.filter (fun k => k ≠ name)⟩

/-- `gmProvider.UnregisterAll`: the registry drops every entry. -/
def gmProvider.UnregisterAll (_p : gmProvider) : gmProvider := ⟨[]⟩

/-- `gmProvider.GetTimer`: `GetOrRegisterTimer` registers a timer under `name`
unless a metric of that name is there already. -/
def gmProvider.GetTimer (p : gmProvider) (name : String) : gmProvider :=
  if name ∈ p.registry then p else ⟨p.registry ++ [name]⟩

/-! ## More of the Go standard library -/

/-- Go `strings.Split(s, sep)` for a one-rune separator, on runes. -/
def splitRunes (sep : Char) : List Char → List (List Char)
  | [] => [[]]
  | c :: cs =>
    if c = sep then [] :: splitRunes sep cs
    else
      match splitRunes sep cs with
      | [] => [[c]]
      | x :: xs => (c :: x) :: xs

/-- Go `strings.Split(s, sep)` for a one-rune separator. -/
def stringsSplit (s : String) (sep : Char) : List String :=
  (splitRunes sep s.data).map String.mk

/-- Go `strings.Count(s, sep)` for a one-rune separator. -/
def stringsCount (s : String) (sep : Char) : Nat :=
  s.data.count sep

/-- Go `unicode.IsSpace`.  In Latin-1 the white space runes are listed in the
standard library: tab, newline, vertical tab, form feed, carriage return,
space, U+0085 and U+00A0; above Latin-1 the rune is looked up in the Unicode
`White_Space` table, which is the parameter `whiteSpace`. -/
def unicodeIsSpace (whiteSpace : Char → Bool) (r : Char) : Bool :=
  if r.toNat ≤ 255 then
    decide (r.toNat = 9 ∨ r.toNat = 10 ∨ r.toNat = 11 ∨ r.toNat = 12 ∨ r.toNat = 13 ∨
      r.toNat = 32 ∨ r.toNat = 133 ∨ r.toNat = 160)
  else whiteSpace r

/-- The scan of `strings.Fields`: `cur` is the field being read. -/
def fieldsRunes (isSpace : Char → Bool) : List Char → List Char → List (List Char)
  | [], cur => if cur = [] then [] else [cur]
  | c :: cs, cur =>
    if isSpace c then
      if cur = [] then fieldsRunes isSpace cs [] else cur :: fieldsRunes isSpace cs []
    else fieldsRunes isSpace cs (cur ++ [c])

/-- Go `strings.Fields`: the maximal runs of runes that are not white space. -/
def stringsFields (whiteSpace : Char → Bool) (s : String) : List String :=
  (fieldsRunes (unicodeIsSpace whiteSpace) s.data []).map String.mk

/-- Sequencing of Go statements: a panic ends the run. -/
def Outcome.bind {α β : Type} (x : Outcome α) (f : α → Outcome β) : Outcome β :=
  match x with
  | .returned a => f a
  | .panicked msg => .panicked msg

/-- A Go `int64` after an arithmetic operation: the value wraps around. -/
def wrapInt64 (x : Int) : Int := (x + 2 ^ 63) % 2 ^ 64 - 2 ^ 63

/-- The Go conversion `byte(x)`. -/
def toByte (x : Int) : Nat := (x % 256).toNat

/-- The rune of an ASCII byte in a buffer. -/
def byteRune (k : Nat) : Char := Char.ofNat (k % 256)

/-! ## `logger/logger.go` -/

namespace logger

/-- A `bytes.Buffer`: its content, as runes; every byte `atoi` writes is ASCII. -/
abbrev Buffer := String

/-- `bytes.Buffer.Truncate(n)`: all but the first `n` bytes are dropped; `n`
outside of the buffer panics.  Lengths count runes here; `Log` truncates the
one-byte space it has just written. -/
def Truncate (b : Buffer) (n : Int) : Outcome Buffer :=
  if n < 0 ∨ (b.length : Int) < n then .panicked "bytes.Buffer: truncation out of range"
  else .returned ⟨b.data.take n.toNat⟩

/-- The first loop of `atoi`, `for i >= 0 { d[p] = ...; i /= 10; p--; ... }`.
`d` is the filled part `d[p+1:]` of the array `d [128]byte` and `room` is
`p+1`, the number of cells still free: storing into `d[p]` with no cell free
is an index out of range. -/
def atoiDigits : Nat → Int → List Char → Outcome (List Char)
  | 0, i, d => if 0 ≤ i then .panicked "index out of range [-1]" else .returned d
  | room + 1, i, d =>
    if 0 ≤ i then
      let d := byteRune (48 + toByte (i.tmod 10)) :: d
      let i := i.tdiv 10
      if i = 0 then .returned d else atoiDigits room i d
    else .returned d

/-- The second loop of `atoi`, `for n-p-1 < pad { d[p] = '0'; p-- }`, where
`n-p-1` is the number of cells filled. -/
def atoiPad : Nat → Int → List Char → Outcome (List Char)
  | 0, pad, d =>
    if (d.length : Int) < pad then .panicked "index out of range [-1]" else .returned d
  | room + 1, pad, d =>
    if (d.length : Int) < pad then atoiPad room pad ('0' :: d) else .returned d

/-- `atoi` (`logger.go`): `i` is an `int64`, `pad` an `int`; the result is the
buffer after `b.Write(d[p+1:])`. -/
def atoi (b : Buffer) (i : Int) (pad : Int) : Outcome Buffer :=
  let flag := decide (i < 0)
  let i := if i < 0 then wrapInt64 (-i) else i
  (atoiDigits 128 i []).bind fun d =>
  (atoiPad (128 - d.length) pad d).bind fun d =>
  (if flag then
      if d.length < 128 then Outcome.returned ('-' :: d)
      else .panicked "index out of range [-1]"
    else .returned d).bind fun d =>
  .returned (b ++ ⟨d⟩)

/-- The text asked of `atoi` for a value `i` and a width `pad`: a `-` when `i`
is negative, then the decimal digits of `|i|` with as many zeros in front as it
takes to reach `pad` digits. -/
def atoiWant (i : Int) (pad : Int) : String :=
  (if i < 0 then "-" else "") ++
    ⟨List.replicate (pad.toNat - (Nat.toDigits 10 i.natAbs).length) '0' ++
      Nat.toDigits 10 i.natAbs⟩

/-- The number a run of decimal digits stands for. -/
def decimalValue (cs : List Char) : Nat :=
  cs.foldl (fun acc c => acc * 10 + (c.toNat - 48)) 0

/-- A run of decimal digits with zeros in front up to six digits. -/
def sixDigits (n : Nat) : List Char :=
  List.replicate (6 - (Nat.toDigits 10 n).length) '0' ++ Nat.toDigits 10 n

/-- A `time.Time`: the instant `ns`, in nanoseconds, and what the calendar
methods `Year()`, `Month()`, `Day()`, `Hour()`, `Minute()`, `Second()` return. -/
structure Time where
  ns : Int
  Year : Int
  Month : Int
  Day : Int
  Hour : Int
  Minute : Int
  Second : Int
  deriving DecidableEq, Repr

/-- `t.Sub(u).Nanoseconds()`: the duration `t-u`, which `Sub` keeps within the
range of a `time.Duration`, an `int64`. -/
def Time.Sub (t u : Time) : Int :=
  if t.ns - u.ns > 2 ^ 63 - 1 then 2 ^ 63 - 1
  else if t.ns - u.ns < -(2 ^ 63) then -(2 ^ 63)
  else t.ns - u.ns

/-- The part of `url.URL` the fields read. -/
structure URL where
  Host : String
  RawQuery : String
  deriving DecidableEq, Repr

/-- The part of `http.Request` the fields read; a nil `URL` is `none`. -/
structure Request where
  Method : String
  RequestURI : String
  Proto : String
  Host : String
  RemoteAddr : String
  ContentLength : Int
  Header : List (String × List String)
  URL : Option URL
  deriving DecidableEq, Repr

/-- `http.Header.Get` for a key in canonical form: the first value of the
key, or the empty string. -/
def HeaderGet (h : List (String × List String)) (key : String) : String :=
  match h.lookup key with
  | some (v :: _) => v
  | _ => ""

/-- Go `strings.Index(s, sep)` for a one-rune separator: the offset of the
first occurrence, or `-1`.  Offsets count runes. -/
def stringsIndex (s : String) (sep : Char) : Int :=
  if sep ∈ s.data then (s.data.indexOf sep : Int) else -1

/-- The Go slice expression `s[:hi]`, which panics when `hi` is out of range. -/
def sliceTo (s : String) (hi : Int) : Outcome String :=
  if hi < 0 ∨ (s.length : Int) < hi then .panicked "slice bounds out of range"
  else .returned ⟨s.data.take hi.toNat⟩

/-- The type `field`: a function that writes to the buffer `b`. -/
abbrev field := Buffer → Time → Time → Request → Outcome Buffer

/-- `fields["remote_addr"]`. -/
def remote_addr : field := fun b _t1 _t2 r =>
  (sliceTo r.RemoteAddr (stringsIndex r.RemoteAddr ':')).bind fun s =>
  .returned (b ++ s)

/-- `fields["time"]`. -/
def time : field := fun b _t1 t2 _r =>
  (atoi b t2.Year 4).bind fun b =>
  (atoi (b.push '-') t2.Month 2).bind fun b =>
  (atoi (b.push '-') t2.Day 2).bind fun b =>
  (atoi (b.push 'T') t2.Hour 2).bind fun b =>
  (atoi (b.push ':') t2.Minute 2).bind fun b =>
  (atoi (b.push ':') t2.Second 2).bind fun b =>
  .returned (b.push 'Z')

/-- `fields["request"]`. -/
def request : field := fun b _t1 _t2 r =>
  .returned ((((((b.push '"') ++ r.Method).push ' ') ++ r.RequestURI).push ' ' ++ r.Proto).push '"')

/-- `fields["body_bytes_sent"]`. -/
def body_bytes_sent : field := fun b _t1 _t2 r => atoi b r.ContentLength 0

/-- `fields["http_referer"]`. -/
def http_referer : field := fun b _t1 _t2 r => .returned (b ++ HeaderGet r.Header "Referer")

/-- `fields["http_user_agent"]`. -/
def http_user_agent : field := fun b _t1 _t2 r =>
  .returned (b ++ HeaderGet r.Header "User-Agent")

/-- `fields["http_x_forwarded_for"]`. -/
def http_x_forwarded_for : field := fun b _t1 _t2 r =>
  .returned (b ++ HeaderGet r.Header "X-Forwarded-For")

/-- `fields["server_name"]`. -/
def server_name : field := fun b _t1 _t2 r => .returned (b ++ r.Host)

/-- `fields["proxy_endpoint"]`: `r.URL.Host`, a nil pointer dereference when
`r.URL` is nil. -/
def proxy_endpoint : field := fun b _t1 _end r =>
  match r.URL with
  | none => .panicked "runtime error: invalid memory address or nil pointer dereference"
  | some u => .returned (b ++ u.Host)

/-- `fields["response_time"]`; `time.Second` is `1000000000` and
`time.Microsecond` is `1000`. -/
def response_time : field := fun b t1 t2 _r =>
  let d := t2.Sub t1
  let s := d.tdiv 1000000000
  let us := (d.tmod 1000000000).tdiv 1000
  (atoi b s 0).bind fun b =>
  atoi (b.push '.') us 6

/-- `fields["request_args"]`. -/
def request_args : field := fun b _t1 _t2 r =>
  match r.URL with
  | none => .panicked "runtime error: invalid memory address or nil pointer dereference"
  | some u => .returned (b ++ u.RawQuery)

/-- The map `fields`, as the list of its entries. -/
def fields : List (String × field) :=
  [("remote_addr", remote_addr), ("time", time), ("request", request),
   ("body_bytes_sent", body_bytes_sent), ("http_referer", http_referer),
   ("http_user_agent", http_user_agent), ("http_x_forwarded_for", http_x_forwarded_for),
   ("server_name", server_name), ("proxy_endpoint", proxy_endpoint),
   ("response_time", response_time), ("request_args", request_args)]

/-- The errors of `New` and `parse`. -/
inductive LogError where
  | invalidField (f : String)
  | invalidFormat (format : String)
  deriving DecidableEq, Repr

/-- A `Logger`: the pattern `p`.  The destination `w` shows as the writes of
`Log`; the mutex `mu` is not modelled. -/
structure Logger where
  p : List field

/-- The loop of `parse` over the names, `pattern` being what is collected. -/
def parseLoop : List String → List field → Except LogError (List field)
  | [], pattern => .ok pattern
  | f :: rest, pattern =>
    match fields.lookup f with
    | none => .error (.invalidField f)
    | some p => parseLoop rest (pattern ++ [p])

/-- `parse` (`logger.go`). -/
def parse (whiteSpace : Char → Bool) (format : String) : Except LogError (List field) :=
  parseLoop (stringsFields whiteSpace format) []

/-- `New` (`logger.go`); an error stands for the pair of a nil logger and
the error. -/
def New (whiteSpace : Char → Bool) (format : String) : Except LogError Logger :=
  match parse whiteSpace format with
  | .error err => .error err
  | .ok p => if p.length = 0 then .error (.invalidFormat format) else .ok ⟨p⟩

/-- The loop of `Log`: each field writes, then a space is written. -/
def logLoop (t1 t2 : Time) (r : Request) : List field → Buffer → Outcome Buffer
  | [], b => .returned b
  | p :: rest, b => (p b t1 t2 r).bind fun b => logLoop t1 t2 r rest (b.push ' ')

/-- `Logger.Log` (`logger.go`): the buffer from the pool is reset, filled,
and handed to `l.w.Write`; the result lists the calls of `Write` with their
argument. -/
def Logger.Log (l : Logger) (t1 t2 : Time) (r : Request) : Outcome (List String) :=
  (logLoop t1 t2 r l.p "").bind fun b =>
  (Truncate b ((b.length : Int) - 1)).bind fun b =>
  .returned [b.push '\n']

/-- A step on the buffer that only appends: it panics whatever the buffer
holds, or it puts one text `out` behind whatever the buffer holds. -/
def Appends (f : Buffer → Outcome Buffer) : Prop :=
  ∃ out : Outcome String, ∀ b, f b = out.bind fun s => .returned (b ++ s)

/-- The buffer of `Log` after its loop: every text followed by a space. -/
def spaced : List String → String
  | [] => ""
  | out :: rest => out ++ " " ++ spaced rest

/-- The request of `TestLog`. -/
def testRequest : Request where
  Method := "GET"
  RequestURI := "/?q=x"
  Proto := "HTTP/1.1"
  Host := "server host"
  RemoteAddr := "2.2.2.2:666"
  ContentLength := 0
  Header := [("User-Agent", ["Mozilla Firefox"]), ("X-Forwarded-For", ["3.3.3.3"])]
  URL := some ⟨"proxy host", ""⟩

/-- The time `t1` of `TestLog`, 2016-01-01 00:00:00 UTC. -/
def testT1 : Time := ⟨1451606400000000000, 2016, 1, 1, 0, 0, 0⟩

/-- The time `t2` of `TestLog`, 123456 microseconds after `t1`. -/
def testT2 : Time := ⟨1451606400123456000, 2016, 1, 1, 0, 0, 0⟩

end logger

/-! ## Theorems: metrics names -/

/-- C3: `clean` maps the empty string to `_`; any other string keeps its
length and every rune its place, where `.` and `:` become `_` and the rune is
then lower-cased.  In particular `clean "" = "_"` and
`clean "A.B:C" = "a_b_c"`. -/
theorem clean_spec (caseTable : Char → Char) (s : String) :
    clean caseTable s =
        (if s = "" then "_"
         else ⟨s.data.map fun c =>
                unicodeToLower caseTable (if c = '.' ∨ c = ':' then '_' else c)⟩) ∧
      clean caseTable "" = "_" ∧
      clean caseTable "A.B:C" = "a_b_c" := by
  refine ⟨?_, rfl, rfl⟩
  unfold clean
  split
  · rfl
  · simp only [stringsToLower, stringsReplace, List.map_map]
    congr 1
    apply List.map_congr_left
    intro c _
    by_cases h1 : c = '.'
    · subst h1; simp
    · by_cases h2 : c = ':'
      · subst h2; simp
      · simp [h1, h2]

/-- C2: `TargetName` is the four cleaned components joined by dots, with the
two names of the registry test as instances. -/
theorem TargetName_spec (caseTable : Char → Char) (service host path : String)
    (targetURL : URL) :
    TargetName caseTable service host path targetURL =
        clean caseTable service ++ "." ++ clean caseTable host ++ "." ++
          clean caseTable path ++ "." ++ clean caseTable targetURL.Host ∧
      TargetName caseTable "svc-a" "" "/aaa" ⟨"http", "localhost:1234"⟩ =
        "svc-a._./aaa.localhost_1234" ∧
      TargetName caseTable "svc-b" "" "/bbb" ⟨"http", "localhost:5678"⟩ =
        "svc-b._./bbb.localhost_5678" := by
  refine ⟨?_, rfl, rfl⟩
  simp only [TargetName, stringsJoin, String.append_assoc]

/-! ## Theorems: the metered round tripper -/

/-- C1: when the transport returns no response and an error, `RoundTrip` does
not return the error: it panics on `resp.StatusCode`, after the transport call
and before any timer update. -/
theorem RoundTrip_nil_response_panics :
    RoundTrip refusingTransport 7 ⟨"GET", "example.com", "/"⟩ =
        ([.timeNow, .transportRoundTrip ⟨"GET", "example.com", "/"⟩],
          .panicked "runtime error: invalid memory address or nil pointer dereference") ∧
      (RoundTrip refusingTransport 7 ⟨"GET", "example.com", "/"⟩).2 ≠
        .returned (none, some (.other "dial tcp 127.0.0.1:1234: connection refused")) := by
  decide

/-- C10: when the transport returns a response, `RoundTrip` returns that
response and that error unchanged, and the transport was called once, with the
request as given. -/
theorem RoundTrip_returns_transport_result (tr : Transport) (now : Nat) (r : Request)
    (rsp : Response) (err : Option GoError) (h : tr r = (some rsp, err)) :
    (RoundTrip tr now r).2 = .returned (some rsp, err) ∧
      transportCalls (RoundTrip tr now r).1 = [r] := by
  simp [RoundTrip, h, transportCalls]

/-- C10 at a concrete transport and request. -/
theorem RoundTrip_returns_transport_result_witness :
    okTransport ⟨"GET", "example.com", "/"⟩ = (some ⟨200, "hello"⟩, none) ∧
      (RoundTrip okTransport 7 ⟨"GET", "example.com", "/"⟩).2 =
        .returned (some ⟨200, "hello"⟩, none) ∧
      transportCalls (RoundTrip okTransport 7 ⟨"GET", "example.com", "/"⟩).1 =
        [⟨"GET", "example.com", "/"⟩] :=
  ⟨rfl, RoundTrip_returns_transport_result okTransport 7 ⟨"GET", "example.com", "/"⟩
    ⟨200, "hello"⟩ none rfl⟩

/-! ## Theorems: the TCP+SNI relay -/

/-- The slice `data[:n]` after the first read holds the bytes the connection
delivered, at most 1024 of them. -/
theorem connRead_data (pending : List Byte) (err : Option GoError) :
    (connRead pending err (makeBytes 1024)).1.take
        (connRead pending err (makeBytes 1024)).2.1 = pending.take 1024 ∧
      (connRead pending err (makeBytes 1024)).2.2 = err := by
  unfold makeBytes
  simp only [connRead, List.length_replicate, List.take_left', and_self]

/-- C4: after a successful first read, a failed parse makes `Serve` write
`handshake failed` and a parse without server name makes it write
`server_name missing`, each followed by a newline; nothing else is written,
nothing is looked up or dialled, and the client connection is closed. -/
theorem Serve_diagnostic (p : tcpSNIProxy) (env : ServeEnv)
    (hs : env.shuttingDown = false) (hr : env.inReadErr = none) :
    ((env.readServerName (env.inPending.take 1024)).2 = false →
        Serve p env =
          [.read .client 1024, .readServerName (env.inPending.take 1024),
           .writeText .client "handshake failed\n", .close .client]) ∧
      ((env.readServerName (env.inPending.take 1024)).2 = true →
        (env.readServerName (env.inPending.take 1024)).1 = "" →
        Serve p env =
          [.read .client 1024, .readServerName (env.inPending.take 1024),
           .writeText .client "server_name missing\n", .close .client]) := by
  constructor
  · intro hok
    simp only [Serve, connRead_data, hs, hr, hok]
    rfl
  · intro hok hname
    simp only [Serve, connRead_data, hs, hr, hok, hname]
    rfl

/-- C6: when `ShuttingDown()` holds, closing the client connection is all
`Serve` does: no read, no write, no lookup, no dial. -/
theorem Serve_shutting_down (p : tcpSNIProxy) (env : ServeEnv)
    (hs : env.shuttingDown = true) :
    Serve p env = [.close .client] := by
  simp only [Serve, hs]
  rfl

/-- C6 at a concrete run. -/
theorem Serve_shutting_down_witness :
    Serve sampleProxy { relayEnv with shuttingDown := true } = [.close .client] :=
  Serve_shutting_down sampleProxy { relayEnv with shuttingDown := true } rfl

/-- C4 at two concrete runs: a garbled hello and a hello without server name. -/
theorem Serve_diagnostic_witness :
    Serve sampleProxy { relayEnv with inPending := [71, 69, 84] } =
        [.read .client 1024, .readServerName (List.take 1024 [71, 69, 84]),
         .writeText .client "handshake failed\n", .close .client] ∧
      Serve sampleProxy { relayEnv with inPending := [22, 3, 1] } =
        [.read .client 1024, .readServerName (List.take 1024 [22, 3, 1]),
         .writeText .client "server_name missing\n", .close .client] :=
  ⟨(Serve_diagnostic sampleProxy { relayEnv with inPending := [71, 69, 84] } rfl rfl).1 rfl,
   (Serve_diagnostic sampleProxy { relayEnv with inPending := [22, 3, 1] } rfl rfl).2 rfl rfl⟩

/-- C5: whatever the collaborators answer, the run of `Serve` ends with the
close of the client connection; when the dial succeeded the close of the
upstream connection comes right before it, and when no dial succeeded no
upstream connection exists and none is closed. -/
theorem Serve_closes_connections (p : tcpSNIProxy) (env : ServeEnv) :
    [Event.close .client] <:+ Serve p env ∧
      (Serve p env).count (.close .client) = 1 ∧
      (dialSucceeded env (Serve p env) →
        [Event.close .upstream, Event.close .client] <:+ Serve p env ∧
          (Serve p env).count (.close .upstream) = 1) ∧
      (¬ dialSucceeded env (Serve p env) → Event.close .upstream ∉ Serve p env) := by
  unfold dialSucceeded
  cases hs : env.shuttingDown
  · cases hr : env.inReadErr
    · rcases hp : env.readServerName (env.inPending.take 1024) with ⟨nm, ok⟩
      cases ok
      · simp [Serve, connRead_data, hs, hr, hp, dialCalls, fmtFprintln, List.suffix_cons_iff]
      · by_cases hn : nm = ""
        · simp [Serve, connRead_data, hs, hr, hp, hn, dialCalls, fmtFprintln,
            List.suffix_cons_iff]
        · rcases hl : env.lookupHost nm with _ | t
          · simp [Serve, connRead_data, hs, hr, hp, hn, hl, dialCalls, List.suffix_cons_iff]
          · cases hd : env.dialTimeout "tcp" t.URL.Host p.cfg.DialTimeout
            · cases hw : env.outWrite (env.inPending.take 1024)
              · rcases he : env.errc with _ | _ | msg <;>
                  simp [Serve, connRead_data, hs, hr, hp, hn, hl, hd, hw, he, dialCalls,
                    List.suffix_cons_iff]
              · simp [Serve, connRead_data, hs, hr, hp, hn, hl, hd, hw, dialCalls,
                  List.suffix_cons_iff]
            · simp [Serve, connRead_data, hs, hr, hp, hn, hl, hd, dialCalls,
                List.suffix_cons_iff]
    · simp [Serve, connRead_data, hs, hr, dialCalls, List.suffix_cons_iff]
  · simp [Serve, hs, dialCalls]

/-- C7: after a successful first read the bytes it returned, at most 1024
and all of them when the client sent no more, are the one buffer handed to
`readServerName`.  When the parse gives a server name, the lookup a target and
the dial a connection, the run starts with the read, the parse, the lookup,
the dial and the write of those same bytes upstream; that write is the only
one `Serve` makes upstream and it comes before both copy tasks.  A dial
succeeds in no other run. -/
theorem Serve_forwards_hello (p : tcpSNIProxy) (env : ServeEnv)
    (hs : env.shuttingDown = false) (hr : env.inReadErr = none) :
    (env.inPending.take 1024).length ≤ 1024 ∧
      (env.inPending.length ≤ 1024 → env.inPending.take 1024 = env.inPending) ∧
      parseCalls (Serve p env) = [env.inPending.take 1024] ∧
      (∀ t, (env.readServerName (env.inPending.take 1024)).2 = true →
        (env.readServerName (env.inPending.take 1024)).1 ≠ "" →
        env.lookupHost (env.readServerName (env.inPending.take 1024)).1 = some t →
        env.dialTimeout "tcp" t.URL.Host p.cfg.DialTimeout = none →
        [Event.read .client 1024, .readServerName (env.inPending.take 1024),
            .lookupHost (env.readServerName (env.inPending.take 1024)).1,
            .dialTimeout "tcp" t.URL.Host p.cfg.DialTimeout,
            .write .upstream (env.inPending.take 1024)] <+: Serve p env ∧
          upstreamWrites (Serve p env) = [env.inPending.take 1024] ∧
          Event.write .upstream (env.inPending.take 1024) ∈ beforeCopy (Serve p env) ∧
          dialSucceeded env (Serve p env)) ∧
      (dialSucceeded env (Serve p env) →
        ∃ t, (env.readServerName (env.inPending.take 1024)).2 = true ∧
          (env.readServerName (env.inPending.take 1024)).1 ≠ "" ∧
          env.lookupHost (env.readServerName (env.inPending.take 1024)).1 = some t ∧
          env.dialTimeout "tcp" t.URL.Host p.cfg.DialTimeout = none) := by
  refine ⟨by simp, fun h => List.take_of_length_le h, ?_, ?_, ?_⟩
  · rcases hp : env.readServerName (env.inPending.take 1024) with ⟨nm, ok⟩
    cases ok
    · simp [Serve, connRead_data, hs, hr, hp, parseCalls, fmtFprintln]
    · by_cases hn : nm = ""
      · simp [Serve, connRead_data, hs, hr, hp, hn, parseCalls, fmtFprintln]
      · rcases hl : env.lookupHost nm with _ | t
        · simp [Serve, connRead_data, hs, hr, hp, hn, hl, parseCalls]
        · cases hd : env.dialTimeout "tcp" t.URL.Host p.cfg.DialTimeout
          · cases hw : env.outWrite (env.inPending.take 1024)
            · rcases he : env.errc with _ | _ | msg <;>
                simp [Serve, connRead_data, hs, hr, hp, hn, hl, hd, hw, he, parseCalls]
            · simp [Serve, connRead_data, hs, hr, hp, hn, hl, hd, hw, parseCalls]
          · simp [Serve, connRead_data, hs, hr, hp, hn, hl, hd, parseCalls]
  · intro t hok hn hl hd
    unfold dialSucceeded
    rcases hp : env.readServerName (env.inPending.take 1024) with ⟨nm, ok⟩
    rw [hp] at hok hn hl
    simp only at hok hn hl
    subst hok
    cases hw : env.outWrite (env.inPending.take 1024)
    · rcases he : env.errc with _ | _ | msg <;>
        simp [Serve, connRead_data, hs, hr, hp, hn, hl, hd, hw, he, dialCalls,
          upstreamWrites, beforeCopy, List.cons_prefix_cons, List.takeWhile]
    · simp [Serve, connRead_data, hs, hr, hp, hn, hl, hd, hw, dialCalls,
        upstreamWrites, beforeCopy, List.cons_prefix_cons, List.takeWhile]
  · unfold dialSucceeded
    rcases hp : env.readServerName (env.inPending.take 1024) with ⟨nm, ok⟩
    cases ok
    · simp [Serve, connRead_data, hs, hr, hp, dialCalls, fmtFprintln]
    · by_cases hn : nm = ""
      · simp [Serve, connRead_data, hs, hr, hp, hn, dialCalls, fmtFprintln]
      · rcases hl : env.lookupHost nm with _ | t
        · simp [Serve, connRead_data, hs, hr, hp, hn, hl, dialCalls]
        · cases hd : env.dialTimeout "tcp" t.URL.Host p.cfg.DialTimeout
          · intro _
            exact ⟨t, rfl, hn, rfl, hd⟩
          · simp [Serve, connRead_data, hs, hr, hp, hn, hl, hd, dialCalls]

/-- C8: `Serve` dials exactly when it is not shutting down, the first read
succeeded, the parse gave a non-empty server name and the lookup gave a
target; it then dials once, network `tcp`, the host of the target URL, the
configured timeout.  After a failed read the run is the read and the close;
after an empty lookup it is read, parse, lookup, log and close: no write to
the client and no dial. -/
theorem Serve_dials_iff (p : tcpSNIProxy) (env : ServeEnv) :
    (dialCalls (Serve p env) ≠ [] ↔ reachesDial env) ∧
      (∀ c ∈ dialCalls (Serve p env),
        ∃ t, env.lookupHost (env.readServerName (env.inPending.take 1024)).1 = some t ∧
          dialCalls (Serve p env) = [c] ∧ c = ("tcp", t.URL.Host, p.cfg.DialTimeout)) ∧
      (env.shuttingDown = false → env.inReadErr ≠ none →
        Serve p env = [.read .client 1024, .close .client]) ∧
      (env.shuttingDown = false → env.inReadErr = none →
        (env.readServerName (env.inPending.take 1024)).2 = true →
        (env.readServerName (env.inPending.take 1024)).1 ≠ "" →
        env.lookupHost (env.readServerName (env.inPending.take 1024)).1 = none →
        Serve p env =
          [.read .client 1024, .readServerName (env.inPending.take 1024),
           .lookupHost (env.readServerName (env.inPending.take 1024)).1,
           .log ("[WARN] No route for " ++ (env.readServerName (env.inPending.take 1024)).1),
           .close .client]) := by
  unfold reachesDial
  refine ⟨?_, ?_, ?_, ?_⟩
  · cases hs : env.shuttingDown
    · cases hr : env.inReadErr
      · rcases hp : env.readServerName (env.inPending.take 1024) with ⟨nm, ok⟩
        cases ok
        · simp [Serve, connRead_data, hs, hr, hp, dialCalls, fmtFprintln]
        · by_cases hn : nm = ""
          · simp [Serve, connRead_data, hs, hr, hp, hn, dialCalls, fmtFprintln]
          · rcases hl : env.lookupHost nm with _ | t
            · simp [Serve, connRead_data, hs, hr, hp, hn, hl, dialCalls]
            · simp [Serve, connRead_data, hs, hr, hp, hn, hl, dialCalls]
      · simp [Serve, connRead_data, hs, hr, dialCalls]
    · simp [Serve, hs, dialCalls]
  · cases hs : env.shuttingDown
    · cases hr : env.inReadErr
      · rcases hp : env.readServerName (env.inPending.take 1024) with ⟨nm, ok⟩
        cases ok
        · simp [Serve, connRead_data, hs, hr, hp, dialCalls, fmtFprintln]
        · by_cases hn : nm = ""
          · simp [Serve, connRead_data, hs, hr, hp, hn, dialCalls, fmtFprintln]
          · rcases hl : env.lookupHost nm with _ | t
            · simp [Serve, connRead_data, hs, hr, hp, hn, hl, dialCalls]
            · cases hd : env.dialTimeout "tcp" t.URL.Host p.cfg.DialTimeout
              · cases hw : env.outWrite (env.inPending.take 1024)
                · rcases he : env.errc with _ | _ | msg <;>
                    simp [Serve, connRead_data, hs, hr, hp, hn, hl, hd, hw, he, dialCalls]
                · simp [Serve, connRead_data, hs, hr, hp, hn, hl, hd, hw, dialCalls]
              · simp [Serve, connRead_data, hs, hr, hp, hn, hl, hd, dialCalls]
      · simp [Serve, connRead_data, hs, hr, dialCalls]
    · simp [Serve, hs, dialCalls]
  · intro hs hr
    simp [Serve, connRead_data, hs, hr]
  · intro hs hr hok hn hl
    simp [Serve, connRead_data, hs, hr, hok, hn, hl]

/-- C7 at a concrete run that relays: the five bytes read are parsed, and are
written upstream after the dial and before the copy tasks. -/
theorem Serve_forwards_hello_witness :
    relayEnv.shuttingDown = false ∧ relayEnv.inReadErr = none ∧
      parseCalls (Serve sampleProxy relayEnv) = [[22, 1, 3, 0, 5]] ∧
      [Event.read .client 1024, .readServerName [22, 1, 3, 0, 5],
          .lookupHost "example.com", .dialTimeout "tcp" "10.0.0.1:443" 30,
          .write .upstream [22, 1, 3, 0, 5]] <+: Serve sampleProxy relayEnv ∧
      upstreamWrites (Serve sampleProxy relayEnv) = [[22, 1, 3, 0, 5]] ∧
      Event.write .upstream [22, 1, 3, 0, 5] ∈ beforeCopy (Serve sampleProxy relayEnv) ∧
      dialSucceeded relayEnv (Serve sampleProxy relayEnv) :=
  ⟨rfl, rfl, (Serve_forwards_hello sampleProxy relayEnv rfl rfl).2.2.1,
    (Serve_forwards_hello sampleProxy relayEnv rfl rfl).2.2.2.1
      ⟨⟨"tcp", "10.0.0.1:443"⟩, 1, []⟩ rfl (by decide) rfl rfl⟩

/-! ## Theorems: the registry test -/

/-- Appending the visited keys one by one collects them in visiting order. -/
theorem foldl_append_singleton (l acc : List String) :
    l.foldl (fun n k => n ++ [k]) acc = acc ++ l := by
  induction l generalizing acc with
  | nil => simp
  | cons a l ih => simp [ih]

/-- `stubProvider.Names` returns the keys in the order `range` visits them. -/
theorem stubProvider_Names_eq (order : RangeOrder) (p : stubProvider) :
    p.Names order = order p.names := by
  simp [stubProvider.Names, foldl_append_singleton]

/-- Unregistering in a loop keeps the keys that the table implies or that the
loop never visits. -/
theorem foldl_Unregister (ids visited : List String) (prov : stubProvider) :
    (visited.foldl (fun p n => if n ∈ ids then p else p.Unregister n) prov).names =
      prov.names.filter (fun k => decide (k ∈ ids ∨ k ∉ visited)) := by
  induction visited generalizing prov with
  | nil => simp
  | cons a l ih =>
    simp only [List.foldl_cons, ih]
    by_cases ha : a ∈ ids
    · simp only [ha, if_true]
      apply List.filter_congr
      intro k _
      by_cases hk : k = a
      · subst hk; simp [ha]
      · simp [hk]
    · simp only [ha, if_false, stubProvider.Unregister, List.filter_filter]
      apply List.filter_congr
      intro k _
      by_cases hk : k = a
      · subst hk; simp [ha]
      · simp [hk]

/-- Whatever order `range` picks, `syncRegistry` leaves registered exactly the
identifiers that were registered and are implied by the table. -/
theorem syncRegistry_names (caseTable : Char → Char) (order : RangeOrder)
    (horder : order.Valid) (prov : stubProvider) (t : Table) :
    (syncRegistry caseTable order prov t).names =
      prov.names.filter (fun k => decide (k ∈ t.identifiers caseTable)) := by
  rw [syncRegistry, foldl_Unregister, stubProvider_Names_eq]
  apply List.filter_congr
  intro k hk
  have : k ∈ order prov.names := (horder prov.names).mem_iff.mpr hk
  simp [this]

/-- C9: in `TestSyncRegistry` the two calls of `AddRoute` register both
identifiers, and `stubProvider.Names` hands them out in the order the `range`
over its map visits them.  When that order is the reverse of the insertion
order the result is not the list the test and the claim expect, although it
holds the same names. -/
theorem TestSyncRegistry_names_unsorted (caseTable : Char → Char) :
    RangeOrder.Valid List.reverse ∧
      (testAdds caseTable).toOption.map (fun x => x.2.Names List.reverse) =
        some ["svc-b._./bbb.localhost_5678", "svc-a._./aaa.localhost_1234"] ∧
      (testAdds caseTable).toOption.map (fun x => x.2.Names List.reverse) ≠
        some testWantAfterAdds ∧
      (testAdds caseTable).toOption.map (fun x => gmNames List.reverse x.2.names) =
        some testWantAfterAdds := by
  have h : (testAdds caseTable).toOption.map (fun x => x.2.Names List.reverse) =
      some ["svc-b._./bbb.localhost_5678", "svc-a._./aaa.localhost_1234"] := rfl
  refine ⟨fun keys => List.reverse_perm keys, h, ?_, rfl⟩
  rw [h]
  decide

/-- The second half of `TestSyncRegistry`: after `DelRoute` of `svc-b` and
`syncRegistry` one name is left, whatever order `range` picks. -/
theorem TestSyncRegistry_after_delete (caseTable : Char → Char) (o1 o2 : RangeOrder)
    (h1 : o1.Valid) (h2 : o2.Valid) :
    (testAdds caseTable).toOption.map (fun x =>
        (syncRegistry caseTable o1 x.2
          (Table.DelRoute x.1 "svc-b" "" "/bbb" ⟨"http", "localhost:5678"⟩)).Names o2) =
      some ["svc-a._./aaa.localhost_1234"] := by
  have h : testAdds caseTable =
      .ok ([("", [⟨"svc-a", "", "/aaa", [⟨⟨"http", "localhost:1234"⟩, 1, []⟩]⟩,
                  ⟨"svc-b", "", "/bbb", [⟨⟨"http", "localhost:5678"⟩, 1, []⟩]⟩])],
           ⟨["svc-a._./aaa.localhost_1234", "svc-b._./bbb.localhost_5678"]⟩) := rfl
  rw [h]
  simp only [Except.toOption, Option.map_some', Option.some.injEq, stubProvider_Names_eq]
  rw [syncRegistry_names caseTable o1 h1]
  have hf : (List.filter
      (fun k => decide (k ∈ Table.identifiers caseTable
        (Table.DelRoute
          [("", [⟨"svc-a", "", "/aaa", [⟨⟨"http", "localhost:1234"⟩, 1, []⟩]⟩,
                  ⟨"svc-b", "", "/bbb", [⟨⟨"http", "localhost:5678"⟩, 1, []⟩]⟩])]
          "svc-b" "" "/bbb" ⟨"http", "localhost:5678"⟩)))
      ["svc-a._./aaa.localhost_1234", "svc-b._./bbb.localhost_5678"]) =
      ["svc-a._./aaa.localhost_1234"] := rfl
  rw [hf]
  exact List.perm_singleton.mp (h2 _)

/-! ## Theorems: the shape of metrics names -/

/-- Lower-casing a rune that is neither a dot nor a colon gives neither,
provided the case table above ASCII gives neither. -/
theorem unicodeToLower_ne (caseTable : Char → Char)
    (hct : ∀ r : Char, 127 < r.toNat → caseTable r ≠ '.' ∧ caseTable r ≠ ':')
    (c : Char) (hdot : c ≠ '.') (hcolon : c ≠ ':') :
    unicodeToLower caseTable c ≠ '.' ∧ unicodeToLower caseTable c ≠ ':' := by
  unfold unicodeToLower
  by_cases h127 : c.toNat ≤ 127
  · rw [if_pos h127]
    by_cases hup : 65 ≤ c.toNat ∧ c.toNat ≤ 90
    · rw [if_pos hup]
      obtain ⟨h1, h2⟩ := hup
      generalize c.toNat = n at h1 h2
      interval_cases n <;> exact ⟨by decide, by decide⟩
    · rw [if_neg hup]
      exact ⟨hdot, hcolon⟩
  · rw [if_neg h127]
    exact hct c (by omega)

/-- The runes of a cleaned text. -/
theorem clean_data (caseTable : Char → Char) (s : String) (hs : s ≠ "") :
    (clean caseTable s).data =
      s.data.map fun c => unicodeToLower caseTable (if c = '.' ∨ c = ':' then '_' else c) := by
  unfold clean
  rw [if_neg hs]
  simp only [stringsToLower, stringsReplace, List.map_map]
  apply List.map_congr_left
  intro c _
  by_cases h1 : c = '.'
  · subst h1; simp
  · by_cases h2 : c = ':'
    · subst h2; simp
    · simp [h1, h2]

/-- A cleaned text is not empty and holds neither a dot nor a colon. -/
theorem clean_shape (caseTable : Char → Char)
    (hct : ∀ r : Char, 127 < r.toNat → caseTable r ≠ '.' ∧ caseTable r ≠ ':') (s : String) :
    clean caseTable s ≠ "" ∧ '.' ∉ (clean caseTable s).data ∧
      ':' ∉ (clean caseTable s).data := by
  by_cases hs : s = ""
  · subst hs
    have h : clean caseTable "" = "_" := rfl
    rw [h]
    exact ⟨by decide, by decide, by decide⟩
  · have hdata := clean_data caseTable s hs
    have hne : s.data ≠ [] := fun h => hs (String.ext h)
    have hrune : ∀ c : Char, unicodeToLower caseTable (if c = '.' ∨ c = ':' then '_' else c) ≠ '.' ∧
        unicodeToLower caseTable (if c = '.' ∨ c = ':' then '_' else c) ≠ ':' := by
      intro c
      by_cases h : c = '.' ∨ c = ':'
      · rw [if_pos h]
        exact unicodeToLower_ne caseTable hct '_' (by decide) (by decide)
      · rw [if_neg h]
        exact unicodeToLower_ne caseTable hct c (fun e => h (Or.inl e)) (fun e => h (Or.inr e))
    refine ⟨?_, ?_, ?_⟩
    · intro h
      have : (clean caseTable s).data = [] := by rw [h]
      rw [hdata] at this
      exact hne (List.map_eq_nil_iff.mp this)
    · rw [hdata]
      intro hmem
      obtain ⟨c, _, hc⟩ := List.mem_map.mp hmem
      exact (hrune c).1 hc
    · rw [hdata]
      intro hmem
      obtain ⟨c, _, hc⟩ := List.mem_map.mp hmem
      exact (hrune c).2 hc

/-- Splitting runes without separator gives them back as the one part. -/
theorem splitRunes_none (sep : Char) (a : List Char) (ha : sep ∉ a) :
    splitRunes sep a = [a] := by
  induction a with
  | nil => rfl
  | cons c cs ih =>
    have hc : c ≠ sep := fun h => ha (h ▸ List.mem_cons_self _ _)
    have hcs : sep ∉ cs := fun h => ha (List.mem_cons_of_mem _ h)
    rw [splitRunes, if_neg hc, ih hcs]

/-- Splitting cuts at the first separator. -/
theorem splitRunes_append (sep : Char) (a rest : List Char) (ha : sep ∉ a) :
    splitRunes sep (a ++ sep :: rest) = a :: splitRunes sep rest := by
  induction a with
  | nil => simp [splitRunes]
  | cons c cs ih =>
    have hc : c ≠ sep := fun h => ha (h ▸ List.mem_cons_self _ _)
    have hcs : sep ∉ cs := fun h => ha (List.mem_cons_of_mem _ h)
    rw [List.cons_append, splitRunes, if_neg hc, ih hcs]

/-- The runes of a metrics name. -/
theorem TargetName_data (caseTable : Char → Char) (service host path : String)
    (targetURL : URL) :
    (TargetName caseTable service host path targetURL).data =
      (clean caseTable service).data ++ '.' :: ((clean caseTable host).data ++
        '.' :: ((clean caseTable path).data ++ '.' :: (clean caseTable targetURL.Host).data)) := by
  simp [TargetName, stringsJoin]

/-- C19: with a case table that gives neither a dot nor a colon above ASCII,
as that of Unicode, `clean` gives a text that is not empty and holds neither a
dot nor a colon; the result of `TargetName` then holds exactly three dots, and
splitting it at the dots gives the four cleaned components, none empty, in
order. -/
theorem TargetName_shape (caseTable : Char → Char)
    (hct : ∀ r : Char, 127 < r.toNat → caseTable r ≠ '.' ∧ caseTable r ≠ ':')
    (s service host path : String) (targetURL : URL) :
    (clean caseTable s ≠ "" ∧ '.' ∉ (clean caseTable s).data ∧
        ':' ∉ (clean caseTable s).data) ∧
      stringsCount (TargetName caseTable service host path targetURL) '.' = 3 ∧
      stringsSplit (TargetName caseTable service host path targetURL) '.' =
        [clean caseTable service, clean caseTable host, clean caseTable path,
         clean caseTable targetURL.Host] ∧
      (∀ part ∈ stringsSplit (TargetName caseTable service host path targetURL) '.',
        part ≠ "") := by
  have h1 := clean_shape caseTable hct service
  have h2 := clean_shape caseTable hct host
  have h3 := clean_shape caseTable hct path
  have h4 := clean_shape caseTable hct targetURL.Host
  have hsplit : stringsSplit (TargetName caseTable service host path targetURL) '.' =
      [clean caseTable service, clean caseTable host, clean caseTable path,
       clean caseTable targetURL.Host] := by
    unfold stringsSplit
    rw [TargetName_data, splitRunes_append _ _ _ h1.2.1, splitRunes_append _ _ _ h2.2.1,
      splitRunes_append _ _ _ h3.2.1, splitRunes_none _ _ h4.2.1]
    rfl
  refine ⟨clean_shape caseTable hct s, ?_, hsplit, ?_⟩
  · unfold stringsCount
    rw [TargetName_data]
    simp [List.count_append, List.count_cons, List.count_eq_zero_of_not_mem h1.2.1,
      List.count_eq_zero_of_not_mem h2.2.1, List.count_eq_zero_of_not_mem h3.2.1,
      List.count_eq_zero_of_not_mem h4.2.1]
  · rw [hsplit]
    intro part hpart
    simp only [List.mem_cons, List.mem_singleton, List.not_mem_nil, or_false] at hpart
    rcases hpart with rfl | rfl | rfl | rfl
    · exact h1.1
    · exact h2.1
    · exact h3.1
    · exact h4.1

/-- C19 at the identity as case table and the first route of the registry test. -/
theorem TargetName_shape_witness :
    (∀ r : Char, 127 < r.toNat → id r ≠ '.' ∧ id r ≠ ':') ∧
      ((clean id "A.B:C" ≠ "" ∧ '.' ∉ (clean id "A.B:C").data ∧
          ':' ∉ (clean id "A.B:C").data) ∧
        stringsCount (TargetName id "svc-a" "" "/aaa" ⟨"http", "localhost:1234"⟩) '.' = 3 ∧
        stringsSplit (TargetName id "svc-a" "" "/aaa" ⟨"http", "localhost:1234"⟩) '.' =
          [clean id "svc-a", clean id "", clean id "/aaa", clean id "localhost:1234"] ∧
        (∀ part ∈ stringsSplit (TargetName id "svc-a" "" "/aaa" ⟨"http", "localhost:1234"⟩) '.',
          part ≠ "")) :=
  have hid : ∀ r : Char, 127 < r.toNat → id r ≠ '.' ∧ id r ≠ ':' := fun r hr =>
    ⟨fun h => by
        have h' : r = '.' := h
        rw [h'] at hr
        exact absurd hr (by decide),
     fun h => by
        have h' : r = ':' := h
        rw [h'] at hr
        exact absurd hr (by decide)⟩
  ⟨hid, TargetName_shape id hid "A.B:C" "svc-a" "" "/aaa" ⟨"http", "localhost:1234"⟩⟩

/-- C20: `TargetName` is not injective: the hosts `""` and `"_"` give the same
name, and so do the services `a.b`, `a:b` and `A_B`, though the tuples differ. -/
theorem TargetName_not_injective (caseTable : Char → Char) :
    TargetName caseTable "svc" "" "/" ⟨"http", "localhost:1234"⟩ =
        TargetName caseTable "svc" "_" "/" ⟨"http", "localhost:1234"⟩ ∧
      ("" : String) ≠ "_" ∧
      TargetName caseTable "a.b" "" "/" ⟨"http", "localhost:1234"⟩ =
        TargetName caseTable "a:b" "" "/" ⟨"http", "localhost:1234"⟩ ∧
      TargetName caseTable "a:b" "" "/" ⟨"http", "localhost:1234"⟩ =
        TargetName caseTable "A_B" "" "/" ⟨"http", "localhost:1234"⟩ ∧
      ("a.b" : String) ≠ "a:b" ∧ ("a:b" : String) ≠ "A_B" ∧ ("a.b" : String) ≠ "A_B" ∧
      ¬ Function.Injective (fun t : String × String × String × String =>
          TargetName caseTable t.1 t.2.1 t.2.2.1 ⟨"http", t.2.2.2⟩) := by
  refine ⟨rfl, by decide, rfl, rfl, by decide, by decide, by decide, ?_⟩
  intro hinj
  have h := @hinj ("svc", "", "/", "localhost:1234") ("svc", "_", "/", "localhost:1234") rfl
  exact absurd h (by decide)

/-! ## Theorems: timer names -/

/-- The base-10 text `strconv.AppendInt` appends is the text of the integer. -/
theorem strconvAppendInt_eq (b : String) (c : Int) :
    strconvAppendInt b c = b ++ toString c := by
  unfold strconvAppendInt
  cases c with
  | ofNat m =>
    have h : ¬ Int.ofNat m < 0 := by simp
    rw [if_neg h]
    rfl
  | negSucc m =>
    have h : Int.negSucc m < 0 := Int.negSucc_lt_zero m
    rw [if_pos h, String.append_assoc]
    rfl

/-- C18: `name(c)` is `http.status.` followed by the base-10 text of `c`, for
negative codes and 0 as well, and when the transport returns a response with
status code `c` the round trip reads the clock, calls the transport and then
updates once the timer of that name with the start read before the call. -/
theorem name_spec (c : Int) (tr : Transport) (now : Nat) (r : Request) (body : String)
    (err : Option GoError) (h : tr r = (some ⟨c, body⟩, err)) :
    name c = "http.status." ++ toString c ∧
      name 200 = "http.status.200" ∧
      name 0 = "http.status.0" ∧
      name (-1) = "http.status.-1" ∧
      (RoundTrip tr now r).1 =
        [.timeNow, .transportRoundTrip r, .timerUpdateSince (name c) now] := by
  refine ⟨strconvAppendInt_eq _ c, by decide, by decide, by decide, ?_⟩
  simp [RoundTrip, h]

/-- C18 at a transport that answers with status 200. -/
theorem name_spec_witness :
    okTransport ⟨"GET", "example.com", "/"⟩ = (some ⟨200, "hello"⟩, none) ∧
      (name 200 = "http.status." ++ toString (200 : Int) ∧
        name 200 = "http.status.200" ∧
        name 0 = "http.status.0" ∧
        name (-1) = "http.status.-1" ∧
        (RoundTrip okTransport 7 ⟨"GET", "example.com", "/"⟩).1 =
          [.timeNow, .transportRoundTrip ⟨"GET", "example.com", "/"⟩,
           .timerUpdateSince (name 200) 7]) :=
  ⟨rfl, name_spec 200 okTransport 7 ⟨"GET", "example.com", "/"⟩ "hello" none rfl⟩

/-! ## Theorems: the go-metrics provider -/

/-- Of two texts one comes first: `<=` on strings is total. -/
theorem runesLE_total : ∀ a b : List Char, runesLE a b = true ∨ runesLE b a = true := by
  intro a
  induction a with
  | nil => intro b; exact Or.inl (by cases b <;> rfl)
  | cons x xs ih =>
    intro b
    cases b with
    | nil => exact Or.inr rfl
    | cons y ys =>
      simp only [runesLE, Bool.or_eq_true, Bool.and_eq_true, decide_eq_true_eq]
      rcases Nat.lt_trichotomy x.toNat y.toNat with h | h | h
      · exact Or.inl (Or.inl h)
      · rcases ih ys with h' | h'
        · exact Or.inl (Or.inr ⟨h, h'⟩)
        · exact Or.inr (Or.inr ⟨h.symm, h'⟩)
      · exact Or.inr (Or.inl h)

/-- The order `<=` on strings is transitive. -/
theorem runesLE_trans : ∀ a b c : List Char,
    runesLE a b = true → runesLE b c = true → runesLE a c = true := by
  intro a
  induction a with
  | nil => intro b c _ _; cases c <;> rfl
  | cons x xs ih =>
    intro b c hab hbc
    cases b with
    | nil => simp [runesLE] at hab
    | cons y ys =>
      cases c with
      | nil => simp [runesLE] at hbc
      | cons z zs =>
        simp only [runesLE, Bool.or_eq_true, Bool.and_eq_true, decide_eq_true_eq] at hab hbc ⊢
        rcases hab with h1 | ⟨h1, h1'⟩
        · rcases hbc with h2 | ⟨h2, _⟩
          · exact Or.inl (by omega)
          · exact Or.inl (by omega)
        · rcases hbc with h2 | ⟨h2, h2'⟩
          · exact Or.inl (by omega)
          · exact Or.inr ⟨by omega, ih ys zs h1' h2'⟩

/-- `sort.Strings` gives the same strings, in increasing order. -/
theorem sortStrings_spec (names : List String) :
    (sortStrings names).Perm names ∧
      (sortStrings names).Sorted (fun a b => runesLE a.data b.data = true) := by
  haveI : IsTotal String (fun a b => runesLE a.data b.data = true) :=
    ⟨fun a b => runesLE_total a.data b.data⟩
  haveI : IsTrans String (fun a b => runesLE a.data b.data = true) :=
    ⟨fun a b c => runesLE_trans a.data b.data c.data⟩
  exact ⟨List.perm_insertionSort _ names, List.sorted_insertionSort _ names⟩

/-- `gmProvider.Names` holds the registered names and is in increasing
order, whatever order the registry hands them out in. -/
theorem gmNames_spec (order : RangeOrder) (horder : order.Valid) (registered : List String) :
    (gmNames order registered).Perm registered ∧
      (gmNames order registered).Sorted (fun a b => runesLE a.data b.data = true) := by
  unfold gmNames
  rw [foldl_append_singleton, List.nil_append]
  exact ⟨(sortStrings_spec _).1.trans (horder registered), (sortStrings_spec _).2⟩

/-- C15: for every state of the registry, a map whose keys are the registered
names, `gmProvider.Names` returns exactly the registered names, each once, in
increasing lexicographic order; after `Unregister(name)` the name is gone from
`Names` and every other name is still there. -/
theorem gmProvider_Names_spec (order : RangeOrder) (horder : order.Valid) (p : gmProvider)
    (hnodup : p.registry.Nodup) (name : String) :
    (∀ n, n ∈ p.Names order ↔ n ∈ p.registry) ∧
      (p.Names order).Nodup ∧
      (p.Names order).Sorted (fun a b => runesLE a.data b.data = true) ∧
      name ∉ (p.Unregister name).Names order ∧
      (∀ n ∈ p.Names order, n ≠ name → n ∈ (p.Unregister name).Names order) := by
  have h1 := gmNames_spec order horder p.registry
  have h2 := gmNames_spec order horder (p.Unregister name).registry
  refine ⟨fun n => h1.1.mem_iff, h1.1.nodup_iff.mpr hnodup, h1.2, ?_, ?_⟩
  · intro hmem
    have := h2.1.mem_iff.mp hmem
    simp [gmProvider.Unregister] at this
  · intro n hn hne
    apply h2.1.mem_iff.mpr
    have hreg : n ∈ p.registry := h1.1.mem_iff.mp hn
    simp [gmProvider.Unregister, hreg, hne]

/-- C15 at a registry of two names handed out in reverse order. -/
theorem gmProvider_Names_spec_witness :
    RangeOrder.Valid List.reverse ∧ (⟨["b.x", "a.y"]⟩ : gmProvider).registry.Nodup ∧
      ((∀ n, n ∈ (⟨["b.x", "a.y"]⟩ : gmProvider).Names List.reverse ↔
          n ∈ (⟨["b.x", "a.y"]⟩ : gmProvider).registry) ∧
        ((⟨["b.x", "a.y"]⟩ : gmProvider).Names List.reverse).Nodup ∧
        ((⟨["b.x", "a.y"]⟩ : gmProvider).Names List.reverse).Sorted
          (fun a b => runesLE a.data b.data = true) ∧
        "a.y" ∉ ((⟨["b.x", "a.y"]⟩ : gmProvider).Unregister "a.y").Names List.reverse ∧
        (∀ n ∈ (⟨["b.x", "a.y"]⟩ : gmProvider).Names List.reverse, n ≠ "a.y" →
          n ∈ ((⟨["b.x", "a.y"]⟩ : gmProvider).Unregister "a.y").Names List.reverse)) :=
  ⟨fun keys => List.reverse_perm keys, by decide,
    gmProvider_Names_spec List.reverse (fun keys => List.reverse_perm keys) ⟨["b.x", "a.y"]⟩
      (by decide) "a.y"⟩

/-! ## Theorems: `atoi` -/

namespace logger

/-- The byte `'0' + k` of a digit `k` is the digit character of `k`. -/
theorem byteRune_digit (k : Nat) (hk : k < 10) :
    byteRune (48 + toByte (k : Int)) = Nat.digitChar k := by
  interval_cases k <;> rfl

/-- With a cell free for every digit the first loop of `atoi` writes what
`Nat.toDigitsCore` writes at base 10. -/
theorem atoiDigits_eq_toDigitsCore (room : Nat) :
    ∀ (n : Nat) (d : List Char), n < 10 ^ (room + 1) →
      atoiDigits (room + 1) (n : Int) d = .returned (Nat.toDigitsCore 10 (room + 1) n d) := by
  induction room with
  | zero =>
    intro n d hn
    have h0 : n / 10 = 0 := by omega
    have hz : (n : Int).tdiv 10 = 0 := by
      rw [show (10 : Int) = ((10 : Nat) : Int) from rfl, ← Int.ofNat_tdiv, h0]; rfl
    have hm : (n : Int).tmod 10 = ((n % 10 : Nat) : Int) := by
      rw [Int.ofNat_tmod]; rfl
    rw [Nat.toDigitsCore.eq_2, if_pos h0]
    simp only [atoiDigits, Int.natCast_nonneg, if_true, hz, hm]
    rw [byteRune_digit _ (Nat.mod_lt _ (by omega))]
  | succ room ih =>
    intro n d hn
    have hm : (n : Int).tmod 10 = ((n % 10 : Nat) : Int) := by
      rw [Int.ofNat_tmod]; rfl
    have hd : (n : Int).tdiv 10 = ((n / 10 : Nat) : Int) := by
      rw [Int.ofNat_tdiv]; rfl
    rw [Nat.toDigitsCore.eq_2, atoiDigits]
    simp only [Int.natCast_nonneg, if_true, hm, hd]
    rw [byteRune_digit _ (Nat.mod_lt _ (by omega))]
    by_cases h0 : n / 10 = 0
    · simp [h0]
    · have hlt : n / 10 < 10 ^ (room + 1) := by
        rw [Nat.div_lt_iff_lt_mul (by omega)]
        calc n < 10 ^ (room + 1 + 1) := hn
          _ = 10 ^ (room + 1) * 10 := by ring
      have h0' : ¬ ((n / 10 : Nat) : Int) = 0 := by exact_mod_cast h0
      rw [if_neg h0', if_neg h0]
      exact ih (n / 10) _ hlt

/-- The digits `Nat.toDigitsCore` writes do not depend on the fuel, once there
is enough of it. -/
theorem toDigitsCore_fuel (f : Nat) :
    ∀ (g n : Nat) (d : List Char), n < 10 ^ (f + 1) → n < 10 ^ (g + 1) →
      Nat.toDigitsCore 10 (f + 1) n d = Nat.toDigitsCore 10 (g + 1) n d := by
  induction f with
  | zero =>
    intro g n d hf _
    have h0 : n / 10 = 0 := by omega
    rw [Nat.toDigitsCore.eq_2, Nat.toDigitsCore.eq_2, if_pos h0, if_pos h0]
  | succ f ih =>
    intro g n d hf hg
    rw [Nat.toDigitsCore.eq_2 10 n d (f + 1), Nat.toDigitsCore.eq_2 10 n d g]
    by_cases h0 : n / 10 = 0
    · rw [if_pos h0, if_pos h0]
    · rw [if_neg h0, if_neg h0]
      have hlt : n / 10 < 10 ^ (f + 1) := by
        rw [Nat.div_lt_iff_lt_mul (by omega)]
        calc n < 10 ^ (f + 1 + 1) := hf
          _ = 10 ^ (f + 1) * 10 := by ring
      cases g with
      | zero => omega
      | succ g =>
        have hlt' : n / 10 < 10 ^ (g + 1) := by
          rw [Nat.div_lt_iff_lt_mul (by omega)]
          calc n < 10 ^ (g + 1 + 1) := hg
            _ = 10 ^ (g + 1) * 10 := by ring
        exact ih g (n / 10) _ hlt hlt'

/-- The first loop of `atoi` writes the decimal digits of a number that fits the
array. -/
theorem atoiDigits_eq_toDigits (n : Nat) (hn : n < 10 ^ 128) :
    atoiDigits 128 (n : Int) [] = .returned (Nat.toDigits 10 n) := by
  rw [show (128 : Nat) = 127 + 1 from rfl, atoiDigits_eq_toDigitsCore 127 n [] hn, Nat.toDigits]
  have h1 : n < 10 ^ (n + 1) :=
    lt_trans (Nat.lt_pow_self (by omega) n) (Nat.pow_lt_pow_right (by omega) (by omega))
  rw [toDigitsCore_fuel 127 n n [] hn h1]

/-- With a cell free for every zero the second loop of `atoi` puts zeros in
front until `pad` cells are filled. -/
theorem atoiPad_eq (room : Nat) :
    ∀ (pad : Int) (d : List Char), pad - d.length ≤ room →
      atoiPad room pad d = .returned (List.replicate (pad.toNat - d.length) '0' ++ d) := by
  induction room with
  | zero =>
    intro pad d h
    have h1 : ¬ ((d.length : Int) < pad) := by omega
    have h2 : pad.toNat - d.length = 0 := by omega
    simp [atoiPad, h1, h2]
  | succ room ih =>
    intro pad d h
    rw [atoiPad]
    by_cases h1 : (d.length : Int) < pad
    · rw [if_pos h1, ih pad ('0' :: d) (by simp only [List.length_cons]; omega)]
      have h2 : pad.toNat - d.length = (pad.toNat - ('0' :: d).length) + 1 := by
        simp only [List.length_cons]; omega
      rw [h2, List.replicate_succ']
      simp
    · have h2 : pad.toNat - d.length = 0 := by omega
      simp [h1, h2]

/-- The decimal digits of a value below `10 ^ 19` are at most 19. -/
theorem toDigits_length_le (n : Nat) (hn : n < 10 ^ 19) : (Nat.toDigits 10 n).length ≤ 19 :=
  Nat.toDigitsCore_length 10 (by omega) (n + 1) n 19 hn (by omega)

/-- What the two loops of `atoi` do with a value that is not negative when it
reaches them, for a width of at most 100. -/
theorem atoi_loops (n : Nat) (hn : n < 10 ^ 19) (pad : Int) (hp : pad ≤ 100) :
    atoiDigits 128 (n : Int) [] = .returned (Nat.toDigits 10 n) ∧
      atoiPad (128 - (Nat.toDigits 10 n).length) pad (Nat.toDigits 10 n) =
        .returned (List.replicate (pad.toNat - (Nat.toDigits 10 n).length) '0' ++
          Nat.toDigits 10 n) ∧
      (List.replicate (pad.toNat - (Nat.toDigits 10 n).length) '0' ++
        Nat.toDigits 10 n).length < 128 := by
  have hlen := toDigits_length_le n hn
  have h128 : n < 10 ^ 128 := lt_trans hn (Nat.pow_lt_pow_right (by omega) (by omega))
  refine ⟨atoiDigits_eq_toDigits n h128, atoiPad_eq _ pad _ (by omega), ?_⟩
  simp only [List.length_append, List.length_replicate]
  omega

/-- Away from the minimum of `int64` and for a width of at most 100, `atoi`
appends the sign and the padded decimal digits. -/
theorem atoi_appends (b : Buffer) (i pad : Int) (hlo : -(2 ^ 63 - 1) ≤ i)
    (hhi : i ≤ 2 ^ 63 - 1) (hp1 : pad ≤ 100) :
    atoi b i pad = .returned (b ++ atoiWant i pad) := by
  have hn : i.natAbs < 10 ^ 19 := by
    have : (i.natAbs : Int) < 10 ^ 19 := by
      rcases Int.natAbs_eq i with h | h <;> omega
    exact_mod_cast this
  obtain ⟨hdig, hpad, hlen⟩ := atoi_loops i.natAbs hn pad hp1
  unfold atoi atoiWant
  by_cases hneg : i < 0
  · have hw : wrapInt64 (-i) = (i.natAbs : Int) := by
      unfold wrapInt64
      rcases Int.natAbs_eq i with h | h <;> omega
    simp only [hneg, if_true, decide_True, hw, hdig, Outcome.bind, hpad, hlen]
    rfl
  · have hw : i = (i.natAbs : Int) := by
      rcases Int.natAbs_eq i with h | h <;> omega
    rw [← hw] at hdig
    simp only [hneg, if_false, decide_False, hdig, Outcome.bind, hpad]
    simp

/-- C11: for an `int64` other than the minimum and a width from 0 to 100,
`atoi` appends to the buffer a `-` for a negative value and then the decimal
digits of the absolute value, with zeros in front up to the width; what was in
the buffer stays. -/
theorem atoi_spec (b : Buffer) (i pad : Int) (hlo : -(2 ^ 63 - 1) ≤ i) (hhi : i ≤ 2 ^ 63 - 1)
    (_hp0 : 0 ≤ pad) (hp1 : pad ≤ 100) :
    atoi b i pad = .returned (b ++ atoiWant i pad) ∧
      atoi "" 0 0 = .returned "0" ∧
      atoi "" (-1) 5 = .returned "-00001" ∧
      atoi "" 12345 5 = .returned "12345" ∧
      atoi "" (-9223372036854775807) 0 = .returned "-9223372036854775807" :=
  ⟨atoi_appends b i pad hlo hhi hp1, by decide, by decide, by decide, by decide⟩

/-- C11 at a concrete value and width. -/
theorem atoi_spec_witness :
    atoi "x" (-42) 5 = .returned ("x" ++ atoiWant (-42) 5) ∧
      atoi "" 0 0 = .returned "0" ∧
      atoi "" (-1) 5 = .returned "-00001" ∧
      atoi "" 12345 5 = .returned "12345" ∧
      atoi "" (-9223372036854775807) 0 = .returned "-9223372036854775807" :=
  atoi_spec "x" (-42) 5 (by decide) (by decide) (by decide) (by decide)

/-- Away from the minimum of `int64`, `atoi` with width 0 appends what
`strconv.AppendInt` appends at base 10. -/
theorem atoi_eq_AppendInt (b : Buffer) (i : Int) (hlo : -(2 ^ 63 - 1) ≤ i)
    (hhi : i ≤ 2 ^ 63 - 1) :
    atoi b i 0 = .returned (strconvAppendInt b i) := by
  rw [atoi_appends b i 0 hlo hhi (by omega)]
  unfold atoiWant strconvAppendInt
  by_cases h : i < 0
  · simp [h, String.append_assoc]
  · simp [h]

/-- C12: at the minimum of `int64` the negation `i = -i` wraps around to the
same negative value, the digit loop `for i >= 0` is not entered, and `atoi`
appends the sign alone, where `strconv.FormatInt` gives
`-9223372036854775808`. -/
theorem atoi_min_int64 :
    wrapInt64 (-(-9223372036854775808)) = -9223372036854775808 ∧
      atoi "" (-9223372036854775808) 0 = .returned "-" ∧
      strconvAppendInt "" (-9223372036854775808) = "-9223372036854775808" ∧
      atoi "" (-9223372036854775808) 0 ≠
        .returned (strconvAppendInt "" (-9223372036854775808)) := by
  refine ⟨by decide, by decide, by decide, by decide⟩

/-- Reading the digits of `Nat.toDigitsCore` back gives the number. -/
theorem decimalValue_toDigitsCore (f : Nat) :
    ∀ (n : Nat) (d : List Char), n < 10 ^ (f + 1) →
      (Nat.toDigitsCore 10 (f + 1) n d).foldl (fun acc c => acc * 10 + (c.toNat - 48)) 0 =
        d.foldl (fun acc c => acc * 10 + (c.toNat - 48)) n := by
  have hdigit : ∀ k, k < 10 → (Nat.digitChar k).toNat - 48 = k := by
    intro k hk
    interval_cases k <;> rfl
  induction f with
  | zero =>
    intro n d hn
    have h0 : n / 10 = 0 := by omega
    rw [Nat.toDigitsCore.eq_2, if_pos h0, List.foldl_cons, hdigit _ (Nat.mod_lt _ (by omega))]
    congr 1
    omega
  | succ f ih =>
    intro n d hn
    rw [Nat.toDigitsCore.eq_2 10 n d (f + 1)]
    by_cases h0 : n / 10 = 0
    · rw [if_pos h0, List.foldl_cons, hdigit _ (Nat.mod_lt _ (by omega))]
      congr 1
      omega
    · have hlt : n / 10 < 10 ^ (f + 1) := by
        rw [Nat.div_lt_iff_lt_mul (by omega)]
        calc n < 10 ^ (f + 1 + 1) := hn
          _ = 10 ^ (f + 1) * 10 := by ring
      rw [if_neg h0, ih (n / 10) _ hlt, List.foldl_cons, hdigit _ (Nat.mod_lt _ (by omega))]
      congr 1
      omega

/-- Reading the decimal digits of a number back gives the number. -/
theorem decimalValue_toDigits (n : Nat) : decimalValue (Nat.toDigits 10 n) = n := by
  have h1 : n < 10 ^ (n + 1) :=
    lt_trans (Nat.lt_pow_self (by omega) n) (Nat.pow_lt_pow_right (by omega) (by omega))
  rw [decimalValue, Nat.toDigits, decimalValue_toDigitsCore n n [] h1]
  rfl

/-- Zeros in front do not change the number a run of digits stands for. -/
theorem decimalValue_zeros (k : Nat) (ds : List Char) :
    decimalValue (List.replicate k '0' ++ ds) = decimalValue ds := by
  induction k with
  | zero => rfl
  | succ k ih =>
    rw [List.replicate_succ, List.cons_append]
    unfold decimalValue at *
    rw [List.foldl_cons]
    exact ih

/-! ## Theorems: the fields of the access log -/

/-- C16: for `t1` not after `t2` and an elapsed time `d` of nanoseconds that
fits an `int64`, `response_time` appends the decimal digits of `d / 10^9`, a
dot, and `d % 10^9 / 1000` as exactly six digits; read as numbers the two
parts are the whole seconds and the microseconds of `d`, so that together
they are `d` cut to microseconds.  An elapsed time of 123456 microseconds is
written `0.123456`. -/
theorem response_time_spec (b : Buffer) (t1 t2 : Time) (r : Request)
    (h12 : t1.ns ≤ t2.ns) (hfit : t2.ns - t1.ns ≤ 2 ^ 63 - 1) :
    response_time b t1 t2 r =
        .returned (b ++ ⟨Nat.toDigits 10 ((t2.ns - t1.ns) / 1000000000).toNat⟩ ++ "." ++
          ⟨sixDigits ((t2.ns - t1.ns) % 1000000000 / 1000).toNat⟩) ∧
      (sixDigits ((t2.ns - t1.ns) % 1000000000 / 1000).toNat).length = 6 ∧
      decimalValue (Nat.toDigits 10 ((t2.ns - t1.ns) / 1000000000).toNat) =
        ((t2.ns - t1.ns) / 1000000000).toNat ∧
      decimalValue (sixDigits ((t2.ns - t1.ns) % 1000000000 / 1000).toNat) =
        ((t2.ns - t1.ns) % 1000000000 / 1000).toNat ∧
      (t2.ns - t1.ns) / 1000000000 * 1000000 + (t2.ns - t1.ns) % 1000000000 / 1000 =
        (t2.ns - t1.ns) / 1000 ∧
      response_time "" testT1 testT2 testRequest = .returned "0.123456" := by
  have hd0 : 0 ≤ t2.ns - t1.ns := by omega
  have hsub : t2.Sub t1 = t2.ns - t1.ns := by
    unfold Time.Sub
    rw [if_neg (by omega), if_neg (by omega)]
  have hs : (t2.ns - t1.ns).tdiv 1000000000 = (t2.ns - t1.ns) / 1000000000 :=
    Int.tdiv_eq_ediv hd0 (by omega)
  have hm : (t2.ns - t1.ns).tmod 1000000000 = (t2.ns - t1.ns) % 1000000000 :=
    Int.tmod_eq_emod hd0 (by omega)
  have hm0 : 0 ≤ (t2.ns - t1.ns) % 1000000000 := Int.emod_nonneg _ (by omega)
  have hu : ((t2.ns - t1.ns) % 1000000000).tdiv 1000 = (t2.ns - t1.ns) % 1000000000 / 1000 :=
    Int.tdiv_eq_ediv hm0 (by omega)
  have hus : ((t2.ns - t1.ns) % 1000000000 / 1000).toNat < 10 ^ 6 := by omega
  have hlen6 : (Nat.toDigits 10 ((t2.ns - t1.ns) % 1000000000 / 1000).toNat).length ≤ 6 :=
    Nat.toDigitsCore_length 10 (by omega) _ _ 6 hus (by omega)
  refine ⟨?_, ?_, decimalValue_toDigits _, ?_, by omega, by decide⟩
  · unfold response_time
    simp only [hsub, hs, hm, hu]
    rw [atoi_appends b _ 0 (by omega) (by omega) (by omega)]
    simp only [Outcome.bind]
    rw [atoi_appends _ _ 6 (by omega) (by omega) (by omega)]
    have h1 : ¬ (t2.ns - t1.ns) / 1000000000 < 0 := by omega
    have h2 : ¬ (t2.ns - t1.ns) % 1000000000 / 1000 < 0 := by omega
    simp only [atoiWant, h1, h2, if_false, sixDigits, Int.toNat_zero, Nat.zero_sub,
      List.replicate_zero, List.nil_append]
    have e1 : ((t2.ns - t1.ns) / 1000000000).natAbs = ((t2.ns - t1.ns) / 1000000000).toNat := by
      omega
    have e2 : ((t2.ns - t1.ns) % 1000000000 / 1000).natAbs =
        ((t2.ns - t1.ns) % 1000000000 / 1000).toNat := by omega
    rw [e1, e2]
    rfl
  · simp only [sixDigits, List.length_append, List.length_replicate]
    omega
  · rw [sixDigits, decimalValue_zeros, decimalValue_toDigits]

/-- C16 at the times of `TestLog`. -/
theorem response_time_spec_witness :
    testT1.ns ≤ testT2.ns ∧ testT2.ns - testT1.ns ≤ 2 ^ 63 - 1 ∧
      (response_time "x" testT1 testT2 testRequest =
          .returned ("x" ++ ⟨Nat.toDigits 10 ((testT2.ns - testT1.ns) / 1000000000).toNat⟩ ++
            "." ++ ⟨sixDigits ((testT2.ns - testT1.ns) % 1000000000 / 1000).toNat⟩) ∧
        (sixDigits ((testT2.ns - testT1.ns) % 1000000000 / 1000).toNat).length = 6 ∧
        decimalValue (Nat.toDigits 10 ((testT2.ns - testT1.ns) / 1000000000).toNat) =
          ((testT2.ns - testT1.ns) / 1000000000).toNat ∧
        decimalValue (sixDigits ((testT2.ns - testT1.ns) % 1000000000 / 1000).toNat) =
          ((testT2.ns - testT1.ns) % 1000000000 / 1000).toNat ∧
        (testT2.ns - testT1.ns) / 1000000000 * 1000000 +
            (testT2.ns - testT1.ns) % 1000000000 / 1000 =
          (testT2.ns - testT1.ns) / 1000 ∧
        response_time "" testT1 testT2 testRequest = .returned "0.123456") :=
  ⟨by decide, by decide,
    response_time_spec "x" testT1 testT2 testRequest (by decide) (by decide)⟩

/-- Cutting a text at its first colon gives what stands before the colon when
that part holds no colon itself. -/
theorem sliceTo_first_colon (s h p : String) (hs : s = h ++ ":" ++ p) (hh : ':' ∉ h.data) :
    sliceTo s (stringsIndex s ':') = .returned h := by
  have hdata : s.data = h.data ++ ':' :: p.data := by
    rw [hs]; simp
  have hmem : ':' ∈ s.data := by rw [hdata]; simp
  have hidx : s.data.indexOf ':' = h.data.length := by
    rw [hdata, List.indexOf_append_of_not_mem hh, List.indexOf_cons_self]; rfl
  have hlen : h.data.length ≤ s.data.length := by
    rw [hdata]; simp
  have htake : s.data.take h.data.length = h.data := by
    rw [hdata]; exact List.take_left' rfl
  unfold stringsIndex sliceTo
  rw [if_pos hmem, hidx]
  have hcond : ¬ (((h.data.length : Nat) : Int) < 0 ∨
      ((s.length : Nat) : Int) < ((h.data.length : Nat) : Int)) := by
    simp only [String.length]; omega
  rw [if_neg hcond]
  simp only [Int.toNat_ofNat, htake]

/-- When the host part of `RemoteAddr` holds no colon, `remote_addr` writes the
host part. -/
theorem remote_addr_without_colon (b : Buffer) (t1 t2 : Time) (r : Request) (h p : String)
    (hr : r.RemoteAddr = h ++ ":" ++ p) (hh : ':' ∉ h.data) :
    remote_addr b t1 t2 r = .returned (b ++ h) := by
  show (sliceTo r.RemoteAddr (stringsIndex r.RemoteAddr ':')).bind _ = _
  rw [sliceTo_first_colon r.RemoteAddr h p hr hh]
  rfl

/-- C17: `remote_addr` cuts `RemoteAddr` at its first colon.  For the
bracketed IPv6 address `[::1]` with port 666 it writes `[` and not the address
without the port; for the address of `TestLog` it writes `2.2.2.2`. -/
theorem remote_addr_ipv6 :
    remote_addr "" testT1 testT2 { testRequest with RemoteAddr := "[::1]:666" } =
        .returned "[" ∧
      remote_addr "" testT1 testT2 { testRequest with RemoteAddr := "[::1]:666" } ≠
        .returned "[::1]" ∧
      ':' ∉ "666".data ∧
      remote_addr "" testT1 testT2 testRequest = .returned "2.2.2.2" := by
  refine ⟨by decide, by decide, by decide, by decide⟩

/-! ## Theorems: `New` and `Log` -/

/-- Writing a rune appends the text of that rune. -/
theorem push_eq_append (b : String) (c : Char) : b.push c = b ++ String.singleton c := rfl

/-- The empty text in front changes nothing. -/
theorem empty_append (s : String) : "" ++ s = s := by
  apply String.ext
  simp

/-- The empty text behind changes nothing. -/
theorem append_empty (s : String) : s ++ "" = s := by
  apply String.ext
  simp

/-- Appending a text is a step that only appends. -/
theorem appends_text (s : String) : Appends fun b => .returned (b ++ s) :=
  ⟨.returned s, fun _ => rfl⟩

/-- Writing a rune is a step that only appends. -/
theorem appends_push (c : Char) : Appends fun b => .returned (b.push c) :=
  ⟨.returned (String.singleton c), fun _ => rfl⟩

/-- A panic is a step that only appends. -/
theorem appends_panic (msg : String) : Appends fun _ => .panicked msg :=
  ⟨.panicked msg, fun _ => rfl⟩

/-- Two steps that only append, one after the other, only append. -/
theorem appends_bind (f g : Buffer → Outcome Buffer) (hf : Appends f) (hg : Appends g) :
    Appends fun b => (f b).bind g := by
  obtain ⟨of, hf⟩ := hf
  obtain ⟨og, hg⟩ := hg
  refine ⟨of.bind fun s => og.bind fun u => .returned (s ++ u), fun b => ?_⟩
  show (f b).bind g = _
  rw [hf b]
  cases of with
  | panicked m => rfl
  | returned s =>
    simp only [Outcome.bind]
    rw [hg (b ++ s)]
    cases og with
    | panicked m => rfl
    | returned u => simp only [Outcome.bind, String.append_assoc]

/-- A step that only appends still does so after a rune was written. -/
theorem appends_after_push (g : Buffer → Outcome Buffer) (c : Char) (hg : Appends g) :
    Appends fun b => g (b.push c) :=
  appends_bind (fun b => .returned (b.push c)) g (appends_push c) hg

/-- `atoi` only appends. -/
theorem appends_atoi (i pad : Int) : Appends fun b => atoi b i pad := by
  refine ⟨atoi "" i pad, fun b => ?_⟩
  show atoi b i pad = _
  unfold atoi
  simp only []
  cases atoiDigits 128 (if i < 0 then wrapInt64 (-i) else i) [] with
  | panicked m => rfl
  | returned d =>
    simp only [Outcome.bind]
    cases atoiPad (128 - d.length) pad d with
    | panicked m => rfl
    | returned d =>
      simp only []
      by_cases hflag : i < 0
      · by_cases hlen : d.length < 128
        · simp [hflag, hlen]
        · simp [hflag, hlen]
      · simp [hflag]

/-- An entry found by `lookup` is an entry of the list. -/
theorem lookup_mem {β : Type} (l : List (String × β)) (k : String) (v : β)
    (h : l.lookup k = some v) : (k, v) ∈ l := by
  induction l with
  | nil => simp at h
  | cons p l ih =>
    obtain ⟨a, b⟩ := p
    rw [List.lookup_cons] at h
    by_cases hk : k = a
    · subst hk
      simp at h
      simp [h]
    · have hne : (k == a) = false := by simpa using hk
      rw [hne] at h
      exact List.mem_cons_of_mem _ (ih h)

/-- Every field of the table only appends to the buffer. -/
theorem fields_append (t1 t2 : Time) (r : Request) :
    ∀ p ∈ fields, Appends fun b => p.2 b t1 t2 r := by
  intro p hp
  simp only [fields, List.mem_cons, List.mem_singleton, List.not_mem_nil, or_false] at hp
  rcases hp with rfl | rfl | rfl | rfl | rfl | rfl | rfl | rfl | rfl | rfl | rfl
  · exact ⟨sliceTo r.RemoteAddr (stringsIndex r.RemoteAddr ':'), fun _ => rfl⟩
  · exact appends_bind (fun b => atoi b t2.Year 4) _ (appends_atoi _ _)
      (appends_bind (fun b => atoi (b.push '-') t2.Month 2) _
        (appends_after_push (fun b => atoi b t2.Month 2) '-' (appends_atoi _ _))
        (appends_bind (fun b => atoi (b.push '-') t2.Day 2) _
          (appends_after_push (fun b => atoi b t2.Day 2) '-' (appends_atoi _ _))
          (appends_bind (fun b => atoi (b.push 'T') t2.Hour 2) _
            (appends_after_push (fun b => atoi b t2.Hour 2) 'T' (appends_atoi _ _))
            (appends_bind (fun b => atoi (b.push ':') t2.Minute 2) _
              (appends_after_push (fun b => atoi b t2.Minute 2) ':' (appends_atoi _ _))
              (appends_bind (fun b => atoi (b.push ':') t2.Second 2) _
                (appends_after_push (fun b => atoi b t2.Second 2) ':' (appends_atoi _ _))
                (appends_push 'Z'))))))
  · refine ⟨.returned ((((("".push '"' ++ r.Method).push ' ' ++ r.RequestURI).push ' ' ++
        r.Proto).push '"')), fun b => ?_⟩
    show Outcome.returned _ = Outcome.returned _
    simp only [Outcome.bind, push_eq_append, String.append_assoc, empty_append]
  · exact appends_atoi _ _
  · exact appends_text _
  · exact appends_text _
  · exact appends_text _
  · exact appends_text _
  · show Appends fun b => proxy_endpoint b t1 t2 r
    unfold proxy_endpoint
    cases r.URL with
    | none => exact appends_panic _
    | some u => exact appends_text _
  · exact appends_bind (fun b => atoi b _ 0) _ (appends_atoi _ _)
      (appends_after_push (fun b => atoi b _ 6) '.' (appends_atoi _ _))
  · show Appends fun b => request_args b t1 t2 r
    unfold request_args
    cases r.URL with
    | none => exact appends_panic _
    | some u => exact appends_text _

/-- A step that only appends and writes `out` to the empty buffer writes `out`
behind any buffer. -/
theorem appends_returns (f : Buffer → Outcome Buffer) (hf : Appends f) (out : String)
    (h0 : f "" = .returned out) : ∀ b, f b = .returned (b ++ out) := by
  obtain ⟨o, ho⟩ := hf
  intro b
  rw [ho] at h0
  rw [ho b]
  cases o with
  | panicked m => simp [Outcome.bind] at h0
  | returned s =>
    simp only [Outcome.bind, Outcome.returned.injEq, empty_append] at h0 ⊢
    rw [h0]

/-- The loop of `Log` over fields that write the texts `outs`. -/
theorem logLoop_eq (t1 t2 : Time) (r : Request) (ps : List field) (outs : List String)
    (h : List.Forall₂ (fun p out => ∀ b, p b t1 t2 r = .returned (b ++ out)) ps outs) :
    ∀ b, logLoop t1 t2 r ps b = .returned (b ++ spaced outs) := by
  induction h with
  | nil =>
    intro b
    show Outcome.returned b = _
    rw [spaced, append_empty]
  | cons hp _ ih =>
    intro b
    rw [logLoop, hp b]
    simp only [Outcome.bind]
    rw [ih]
    simp only [spaced, push_eq_append, String.append_assoc]
    rfl

/-- After the loop the buffer is the texts joined by spaces, and one more
space. -/
theorem spaced_eq_join (outs : List String) (h : outs ≠ []) :
    spaced outs = stringsJoin outs " " ++ " " := by
  induction outs with
  | nil => exact absurd rfl h
  | cons a rest ih =>
    cases rest with
    | nil =>
      simp only [spaced, stringsJoin, append_empty]
    | cons c rest =>
      rw [spaced, ih (by simp), stringsJoin]
      simp only [String.append_assoc]

/-- A name has no entry in the table exactly when it is not one of its keys. -/
theorem lookup_none_iff (n : String) :
    fields.lookup n = none ↔ n ∉ fields.map Prod.fst := by
  rw [List.lookup_eq_none_iff]
  simp only [List.mem_map, not_exists, not_and, bne_iff_ne, ne_eq]
  constructor
  · intro h p hp heq
    exact h p hp heq.symm
  · intro h p hp heq
    exact h p hp heq.symm

/-- `parse` over known names collects their fields in order. -/
theorem parseLoop_ok (names : List String) :
    ∀ pattern, (∀ n ∈ names, ∃ f, fields.lookup n = some f) →
      parseLoop names pattern = .ok (pattern ++ names.filterMap fields.lookup) := by
  induction names with
  | nil => intro pattern _; simp [parseLoop]
  | cons n rest ih =>
    intro pattern h
    obtain ⟨f, hf⟩ := h n (List.mem_cons_self _ _)
    rw [parseLoop, hf]
    simp only []
    rw [ih _ (fun m hm => h m (List.mem_cons_of_mem _ hm)), List.filterMap_cons, hf]
    simp

/-- `parse` fails on the first name without an entry. -/
theorem parseLoop_error (names : List String) :
    ∀ pattern, (∃ n ∈ names, fields.lookup n = none) →
      ∃ f, parseLoop names pattern = .error (.invalidField f) := by
  induction names with
  | nil => intro pattern h; obtain ⟨n, hn, _⟩ := h; simp at hn
  | cons n rest ih =>
    intro pattern h
    rw [parseLoop]
    cases hl : fields.lookup n with
    | none => exact ⟨n, rfl⟩
    | some f =>
      simp only []
      apply ih
      obtain ⟨m, hm, hmn⟩ := h
      rcases List.mem_cons.mp hm with rfl | hm'
      · rw [hl] at hmn; cases hmn
      · exact ⟨m, hm', hmn⟩

/-- The fields of known names, one for each name. -/
theorem filterMap_lookup_known (names : List String)
    (h : ∀ n ∈ names, ∃ f, fields.lookup n = some f) :
    (names.filterMap fields.lookup).map some = names.map fields.lookup := by
  induction names with
  | nil => rfl
  | cons n rest ih =>
    obtain ⟨f, hf⟩ := h n (List.mem_cons_self _ _)
    rw [List.filterMap_cons, hf, List.map_cons, List.map_cons, hf,
      ih (fun m hm => h m (List.mem_cons_of_mem _ hm))]

/-- Either every name of a list has an entry, or one has none. -/
theorem known_or_unknown (names : List String) :
    (∀ n ∈ names, ∃ f, fields.lookup n = some f) ∨ ∃ n ∈ names, fields.lookup n = none := by
  by_cases h : ∃ n ∈ names, fields.lookup n = none
  · exact Or.inr h
  · left
    intro n hn
    cases hl : fields.lookup n with
    | none => exact absurd ⟨n, hn, hl⟩ h
    | some f => exact ⟨f, rfl⟩

/-- C14: `New` fails exactly when the format, split at white space, holds a
name that is not a key of `fields`, or holds no name; otherwise the pattern of
the logger has the field of each name, in the order of the names and with
repeated names kept. -/
theorem New_spec (whiteSpace : Char → Bool) (format : String) :
    ((∃ err, New whiteSpace format = .error err) ↔
        ((∃ n ∈ stringsFields whiteSpace format, n ∉ fields.map Prod.fst) ∨
          stringsFields whiteSpace format = [])) ∧
      (∀ l, New whiteSpace format = .ok l →
        l.p.map some = (stringsFields whiteSpace format).map fields.lookup) ∧
      New whiteSpace "" = .error (.invalidFormat "") ∧
      New whiteSpace " \t " = .error (.invalidFormat " \t ") ∧
      New whiteSpace "time bogus" = .error (.invalidField "bogus") ∧
      (New whiteSpace "time  http_referer time").toOption.map (fun l => l.p.length) = some 3 := by
  refine ⟨?_, ?_, rfl, rfl, rfl, rfl⟩
  · rcases known_or_unknown (stringsFields whiteSpace format) with hk | hu
    · have hp := parseLoop_ok _ [] hk
      have hno : ¬ ∃ n ∈ stringsFields whiteSpace format, n ∉ fields.map Prod.fst := by
        rintro ⟨n, hn, hnk⟩
        obtain ⟨f, hf⟩ := hk n hn
        rw [← lookup_none_iff, hf] at hnk
        cases hnk
      have hlen : (([] : List field) ++
          (stringsFields whiteSpace format).filterMap fields.lookup).length = 0 ↔
          stringsFields whiteSpace format = [] := by
        rw [← List.length_map _ some, List.map_append, List.map_nil, List.nil_append,
          filterMap_lookup_known _ hk, List.length_map, List.length_eq_zero]
      unfold New parse
      rw [hp]
      simp only [hno, false_or]
      by_cases he : stringsFields whiteSpace format = []
      · rw [if_pos (hlen.mpr he)]
        exact ⟨fun _ => he, fun _ => ⟨_, rfl⟩⟩
      · have hne : ¬ (([] : List field) ++
            (stringsFields whiteSpace format).filterMap fields.lookup).length = 0 :=
          fun h => he (hlen.mp h)
        rw [if_neg hne]
        constructor
        · rintro ⟨err, h⟩
          cases h
        · intro h
          exact absurd h he
    · obtain ⟨f, hf⟩ := parseLoop_error _ [] hu
      have hyes : ∃ n ∈ stringsFields whiteSpace format, n ∉ fields.map Prod.fst := by
        obtain ⟨n, hn, hnone⟩ := hu
        exact ⟨n, hn, (lookup_none_iff n).mp hnone⟩
      unfold New parse
      rw [hf]
      simp only [hyes, true_or, iff_true]
      exact ⟨_, rfl⟩
  · intro l hl
    rcases known_or_unknown (stringsFields whiteSpace format) with hk | hu
    · have hp := parseLoop_ok _ [] hk
      unfold New parse at hl
      rw [hp] at hl
      simp only [] at hl
      split at hl
      · cases hl
      · cases hl
        simpa using filterMap_lookup_known _ hk
    · obtain ⟨f, hf⟩ := parseLoop_error _ [] hu
      unfold New parse at hl
      rw [hf] at hl
      cases hl

/-- The fields of names that write the texts `outs` to the empty buffer write
them behind any buffer. -/
theorem fields_write (t1 t2 : Time) (r : Request) (names : List String) (outs : List String)
    (h : List.Forall₂
      (fun name out => ∃ f, fields.lookup name = some f ∧ f "" t1 t2 r = .returned out)
      names outs) :
    (∀ n ∈ names, ∃ f, fields.lookup n = some f) ∧
      List.Forall₂ (fun p out => ∀ b, p b t1 t2 r = .returned (b ++ out))
        (names.filterMap fields.lookup) outs := by
  induction h with
  | nil => exact ⟨fun n hn => absurd hn (List.not_mem_nil n), List.Forall₂.nil⟩
  | @cons name out names outs hhead _ ih =>
    obtain ⟨f, hf, hout⟩ := hhead
    refine ⟨?_, ?_⟩
    · intro n hn
      rcases List.mem_cons.mp hn with rfl | hn'
      · exact ⟨f, hf⟩
      · exact ih.1 n hn'
    · rw [List.filterMap_cons, hf]
      refine List.Forall₂.cons ?_ ih.2
      exact appends_returns (fun b => f b t1 t2 r)
        (fields_append t1 t2 r (name, f) (lookup_mem fields name f hf)) out hout

/-- Cutting the last space off the buffer of `Log` leaves the texts joined by
spaces. -/
theorem Truncate_spaced (outs : List String) (h : outs ≠ []) :
    Truncate (spaced outs) (((spaced outs).length : Int) - 1) =
      .returned (stringsJoin outs " ") := by
  rw [spaced_eq_join outs h]
  have hlen : (stringsJoin outs " " ++ " ").length = (stringsJoin outs " ").data.length + 1 := by
    rw [String.length_append]
    rfl
  have hcond : ¬ ((((stringsJoin outs " " ++ " ").length : Nat) : Int) - 1 < 0 ∨
      (((stringsJoin outs " " ++ " ").length : Nat) : Int) <
        (((stringsJoin outs " " ++ " ").length : Nat) : Int) - 1) := by
    omega
  unfold Truncate
  rw [if_neg hcond, hlen]
  have htake : (stringsJoin outs " " ++ " ").data.take
      ((((stringsJoin outs " ").data.length + 1 : Nat) : Int) - 1).toNat =
      (stringsJoin outs " ").data := by
    have : ((((stringsJoin outs " ").data.length + 1 : Nat) : Int) - 1).toNat =
        (stringsJoin outs " ").data.length := by omega
    rw [this, String.data_append]
    exact List.take_left' rfl
  rw [htake]

/-- C13, as amended: for a logger that `New` built from a format of known
names, and times and a request on which the fields of the names return,
writing the texts `outs`, `Log` hands the writer, in one call of `Write`,
those texts in the order of the format, one space between two of them, no
space at the end, and one newline.  The formats `http_user_agent` and
`http_referer` give `Mozilla Firefox` and the empty text, each with its
newline, for the request of `TestLog`. -/
theorem Log_spec (whiteSpace : Char → Bool) (format : String) (l : Logger) (t1 t2 : Time)
    (r : Request) (outs : List String) (hnew : New whiteSpace format = .ok l)
    (houts : List.Forall₂
      (fun name out => ∃ f, fields.lookup name = some f ∧ f "" t1 t2 r = .returned out)
      (stringsFields whiteSpace format) outs) :
    1 ≤ outs.length ∧
      l.Log t1 t2 r = .returned [stringsJoin outs " " ++ "\n"] ∧
      (New whiteSpace "http_user_agent").toOption.map
          (fun l => l.Log testT1 testT2 testRequest) =
        some (.returned ["Mozilla Firefox\n"]) ∧
      (New whiteSpace "http_referer").toOption.map
          (fun l => l.Log testT1 testT2 testRequest) =
        some (.returned ["\n"]) := by
  obtain ⟨hknown, hwrite⟩ := fields_write t1 t2 r _ outs houts
  have hp := parseLoop_ok _ [] hknown
  have hlen : outs.length = (stringsFields whiteSpace format).length := houts.length_eq.symm
  have hpl : (([] : List field) ++
      (stringsFields whiteSpace format).filterMap fields.lookup).length = outs.length := by
    rw [List.nil_append]
    exact hwrite.length_eq
  unfold New parse at hnew
  rw [hp] at hnew
  simp only [] at hnew
  split at hnew
  · cases hnew
  · rename_i hne
    cases hnew
    have hout1 : 1 ≤ outs.length := by omega
    have hne' : outs ≠ [] := by
      intro h
      rw [h] at hout1
      simp at hout1
    refine ⟨hout1, ?_, rfl, rfl⟩
    unfold Logger.Log
    simp only [List.nil_append]
    rw [logLoop_eq t1 t2 r _ outs hwrite "", empty_append]
    simp only [Outcome.bind]
    rw [Truncate_spaced outs hne']
    rfl

/-- C13, as stated, fails where a field panics: with the format `remote_addr`
and a `RemoteAddr` without colon the slice bound is `-1`, and with the format
`proxy_endpoint` and a nil `URL` the pointer is nil; `Log` panics in its loop
and `Write` is not called, whatever line is expected. -/
theorem Log_field_panics :
    (New (fun _ => false) "remote_addr").toOption.map
          (fun l => l.Log testT1 testT2 { testRequest with RemoteAddr := "@" }) =
        some (.panicked "slice bounds out of range") ∧
      (New (fun _ => false) "proxy_endpoint").toOption.map
          (fun l => l.Log testT1 testT2 { testRequest with URL := none }) =
        some (.panicked "runtime error: invalid memory address or nil pointer dereference") ∧
      (∀ writes : List String,
        (New (fun _ => false) "remote_addr").toOption.map
            (fun l => l.Log testT1 testT2 { testRequest with RemoteAddr := "@" }) ≠
          some (.returned writes)) ∧
      (∀ writes : List String,
        (New (fun _ => false) "proxy_endpoint").toOption.map
            (fun l => l.Log testT1 testT2 { testRequest with URL := none }) ≠
          some (.returned writes)) := by
  have h1 : (New (fun _ => false) "remote_addr").toOption.map
      (fun l => l.Log testT1 testT2 { testRequest with RemoteAddr := "@" }) =
      some (.panicked "slice bounds out of range") := rfl
  have h2 : (New (fun _ => false) "proxy_endpoint").toOption.map
      (fun l => l.Log testT1 testT2 { testRequest with URL := none }) =
      some (.panicked "runtime error: invalid memory address or nil pointer dereference") := rfl
  refine ⟨h1, h2, fun writes h => ?_, fun writes h => ?_⟩
  · rw [h1] at h
    cases h
  · rw [h2] at h
    cases h

/-- C13, as amended, at the request of `TestLog` and a format of three names. -/
theorem Log_spec_witness :
    1 ≤ ["2.2.2.2", "Mozilla Firefox", "0.123456"].length ∧
      (⟨[remote_addr, http_user_agent, response_time]⟩ : Logger).Log testT1 testT2 testRequest =
        .returned [stringsJoin ["2.2.2.2", "Mozilla Firefox", "0.123456"] " " ++ "\n"] ∧
      (New (fun _ => false) "http_user_agent").toOption.map
          (fun l => l.Log testT1 testT2 testRequest) =
        some (.returned ["Mozilla Firefox\n"]) ∧
      (New (fun _ => false) "http_referer").toOption.map
          (fun l => l.Log testT1 testT2 testRequest) =
        some (.returned ["\n"]) :=
  Log_spec (fun _ => false) "remote_addr http_user_agent  response_time"
    ⟨[remote_addr, http_user_agent, response_time]⟩ testT1 testT2 testRequest
    ["2.2.2.2", "Mozilla Firefox", "0.123456"] rfl
    (List.Forall₂.cons ⟨remote_addr, rfl, rfl⟩
      (List.Forall₂.cons ⟨http_user_agent, rfl, rfl⟩
        (List.Forall₂.cons ⟨response_time, rfl, rfl⟩ List.Forall₂.nil)))

end logger

end Fabio
